import Mathlib

/-!
Verification development for the cocoviz runtime-profile pipeline.

The Python source (src/cocoviz/result.py, targets.py, rtp.py, indicator.py,
exceptions.py) is shallowly embedded below.  Polars dataframes are modelled as
a row-major table of rational numbers (`DataFrame`), Python exceptions as the
`Except CocoErr` monad, Python `set`s as insertion-ordered duplicate-free
lists, and Python `dict`s as association lists in insertion order.  Numeric
columns are modelled over `Rat` (exact arithmetic standing in for the floats
of the source; no claim below depends on rounding).
-/

namespace CocoViz

/-- Exceptions of the source (exceptions.py), plus the built-in Python errors
that the modelled code paths can raise.  `badRuntimeProfileVars`,
`badRuntimeProfileObjs` and `badRuntimeProfileReps` are the three distinct
`BadRuntimeProfileException` messages raised in rtp.py; `typeError` models
Python `TypeError` (e.g. arithmetic on `None` from an empty polars column),
`keyError` a failed `dict` lookup and `colNotFound` polars'
`ColumnNotFoundError`. -/
inductive CocoErr where
  | noSuchIndicator (name : String)
  | indicatorMismatch (msg : String)
  | badRuntimeProfileVars
  | badRuntimeProfileObjs
  | badRuntimeProfileReps (expected : Nat) (algo : String) (found : Nat)
  | unknownIndicator (name : String)
  | typeError
  | keyError
  | colNotFound (name : String)
deriving Repr, DecidableEq

/-- Decidable equality on `Except`, for evaluating concrete runs. -/
instance exceptDecidableEq {ε α : Type} [DecidableEq ε] [DecidableEq α] :
    DecidableEq (Except ε α) := fun x y =>
  match x, y with
  | .ok a, .ok b =>
    if h : a = b then .isTrue (by rw [h]) else .isFalse (fun hc => h (by injection hc))
  | .error e, .error f =>
    if h : e = f then .isTrue (by rw [h]) else .isFalse (fun hc => h (by injection hc))
  | .ok _, .error _ => .isFalse (fun hc => Except.noConfusion hc)
  | .error _, .ok _ => .isFalse (fun hc => Except.noConfusion hc)

/-- JSON documents, to the extent needed by `ProblemDescription.to_json` /
`from_json` (result.py lines 50-75): strings, integers and objects. -/
inductive JValue where
  | str (s : String)
  | int (n : Int)
  | obj (fields : List (String × JValue))

/-- `ProblemDescription` (result.py lines 23-75): frozen dataclass with four
fields.  The Python field `instance` keeps its name via a quoted identifier. -/
structure ProblemDescription where
  name : String
  «instance» : String
  number_of_variables : Int
  number_of_objectives : Int
deriving Repr, DecidableEq

/-- Lexicographic order of the dataclass (`order=True` compares the field
tuple). -/
def ProblemDescription.le (p q : ProblemDescription) : Bool :=
  if p.name ≠ q.name then decide (p.name < q.name)
  else if p.«instance» ≠ q.«instance» then decide (p.«instance» < q.«instance»)
  else if p.number_of_variables ≠ q.number_of_variables then
    decide (p.number_of_variables < q.number_of_variables)
  else decide (p.number_of_objectives ≤ q.number_of_objectives)

/-- `ProblemDescription.to_json`: `dataclasses.asdict` followed by
`json.dumps`, modelled at the JSON-document level. -/
def ProblemDescription.to_json (p : ProblemDescription) : JValue :=
  .obj [("name", .str p.name),
        ("instance", .str p.«instance»),
        ("number_of_variables", .int p.number_of_variables),
        ("number_of_objectives", .int p.number_of_objectives)]

/-- First binding of a key in a JSON object (Python `dict` lookup after
`json.loads`, which keeps the last duplicate; `to_json` never produces
duplicates so first = last on every document we read back). -/
def jLookup (fields : List (String × JValue)) (k : String) : Option JValue :=
  (fields.find? (fun f => f.1 == k)).map (fun f => f.2)

/-- `ProblemDescription.from_json`: `json.loads` then `cls(**raw)`.  Keyword
expansion fails (`TypeError`) on an unknown key or a missing required key;
`number_of_variables` / `number_of_objectives` default to 0 when absent.
Python would not type-check the field values; the typed model requires the
shapes `to_json` produces and reports `typeError` otherwise. -/
def ProblemDescription.from_json (j : JValue) : Except CocoErr ProblemDescription :=
  match j with
  | .obj fields =>
    if fields.all (fun f =>
        f.1 == "name" || f.1 == "instance" ||
        f.1 == "number_of_variables" || f.1 == "number_of_objectives") then
      match jLookup fields "name", jLookup fields "instance" with
      | some (.str n), some (.str i) =>
        match jLookup fields "number_of_variables" with
        | some (.int nv) =>
          match jLookup fields "number_of_objectives" with
          | some (.int no) => .ok ⟨n, i, nv, no⟩
          | none => .ok ⟨n, i, nv, 0⟩
          | some _ => .error .typeError
        | none =>
          match jLookup fields "number_of_objectives" with
          | some (.int no) => .ok ⟨n, i, 0, no⟩
          | none => .ok ⟨n, i, 0, 0⟩
          | some _ => .error .typeError
        | some _ => .error .typeError
      | _, _ => .error .typeError
    else .error .typeError
  | _ => .error .typeError

/-- `Indicator` (indicator.py lines 13-37).  The constructor defaults
`display_name` to `name`; callers below always pass all three fields. -/
structure Indicator where
  name : String
  display_name : String
  larger_is_better : Bool
deriving Repr, DecidableEq

/-- The module-level registrations at the bottom of indicator.py, in
registration order (all names are distinct, so dict overwrite never fires). -/
def KNOWN_INDICATORS : List (String × Indicator) :=
  [("hypervolume", ⟨"hypervolume", "Hypervolume", true⟩),
   ("Hypervolume", ⟨"Hypervolume", "Hypervolume", true⟩),
   ("hv", ⟨"hv", "Hypervolume", true⟩),
   ("uhvi", ⟨"uhvi", "UHVI", true⟩),
   ("time", ⟨"time", "Time", false⟩),
   ("r2", ⟨"r2", "R2", false⟩),
   ("igd+", ⟨"igd+", "IGD+", false⟩),
   ("igdplus", ⟨"igdplus", "IGD+", false⟩),
   ("igdp", ⟨"igdp", "IGD+", false⟩)]

/-- The `Union[Indicator, str]` arguments of the source. -/
inductive IndicatorArg where
  | ind (i : Indicator)
  | str (s : String)
deriving Repr, DecidableEq

/-- `indicator.resolve` (indicator.py lines 83-107): an `Indicator` resolves
to itself, a string is looked up in the registry, anything unregistered
raises `UnknownIndicatorException`. -/
def resolve : IndicatorArg → Except CocoErr Indicator
  | .ind i => .ok i
  | .str s =>
    match KNOWN_INDICATORS.find? (fun kv => kv.1 == s) with
    | some kv => .ok kv.2
    | none => .error (.unknownIndicator s)

/-- A polars dataframe: named columns over row-major numeric data.  Rows are
lists of rationals; a well-formed frame has `columns.length` entries per
row. -/
structure DataFrame where
  columns : List String
  rows : List (List Rat)
deriving Repr, DecidableEq

/-- Index of a column name (first occurrence). -/
def DataFrame.colIdx (df : DataFrame) (name : String) : Option Nat :=
  df.columns.findIdx? (fun c => c == name)

/-- Column extraction `df[name]`; `[]` for a missing column (callers that can
actually hit the missing case go through `getColE` instead). -/
def DataFrame.getCol (df : DataFrame) (name : String) : List Rat :=
  match df.colIdx name with
  | some i => df.rows.map (fun r => r.getD i 0)
  | none => []

/-- Column extraction that raises `ColumnNotFoundError` like polars
`df[name]` on a missing name. -/
def DataFrame.getColE (df : DataFrame) (name : String) : Except CocoErr (List Rat) :=
  match df.colIdx name with
  | some i => .ok (df.rows.map (fun r => r.getD i 0))
  | none => .error (.colNotFound name)

/-- `df.rename(\x7bold: new\x7d)`: `none` models polars'
`ColumnNotFoundError` when `old` is absent. -/
def DataFrame.rename (df : DataFrame) (old new : String) : Option DataFrame :=
  if old ∈ df.columns then
    some { df with columns := df.columns.map (fun c => if c = old then new else c) }
  else none

/-- `df.sort(name)`: ascending sort of the rows by the named column.  Polars'
`DataFrame.sort` is called with the default `maintain_order=False`, whose
documented contract guarantees only a permutation of the rows that is
non-decreasing in the key column — the relative order of tied rows is NOT
specified.  To keep the embedding executable the model picks insertion sort
as one concrete conforming refinement; no theorem may read a tie order off
this choice, and statements about the sort itself are made against the
contract `PolarsSortedByKey` below.  A frame without the column is returned
unchanged; every call site has the column. -/
def DataFrame.sortBy (df : DataFrame) (name : String) : DataFrame :=
  match df.colIdx name with
  | some i =>
    { df with rows := df.rows.insertionSort (fun r s => r.getD i 0 ≤ s.getD i 0) }
  | none => df

/-- The documented contract of polars `DataFrame.sort(key)` under the default
`maintain_order=False` (the call at result.py line 102): the header is
unchanged and the rows are a permutation of the input rows that is
non-decreasing in the key column `i`.  Nothing more is guaranteed: any two
outputs agreeing with this contract are equally valid results of the call,
however they order tied rows. -/
def PolarsSortedByKey (d e : DataFrame) (i : Nat) : Prop :=
  e.columns = d.columns ∧ e.rows.Perm d.rows ∧
  e.rows.Pairwise (fun r s => r.getD i 0 ≤ s.getD i 0)

/-- `df.with_columns((pl.col("__fevals") / nvars).alias("__fevals_dim"))`.
Note `Rat` division by zero yields 0 where Python floats yield inf/NaN; the
spec flags the `number_of_variables = 0` case as an open question and no
claim touches it. -/
def DataFrame.withFevalsDim (df : DataFrame) (nvars : Int) : DataFrame :=
  match df.colIdx "__fevals" with
  | some i =>
    { columns := df.columns ++ ["__fevals_dim"],
      rows := df.rows.map (fun r => r ++ [r.getD i 0 / (nvars : Rat)]) }
  | none => df

/-- `pl.concat`: vertical concatenation; polars raises unless the schemas
match, and `pl.concat([])` raises `ValueError`. -/
def plConcat (ds : List DataFrame) : Except CocoErr DataFrame :=
  match ds with
  | [] => .error .typeError
  | d :: rest =>
    if rest.all (fun e => e.columns == d.columns) then
      .ok { columns := d.columns, rows := d.rows ++ rest.flatMap (fun e => e.rows) }
    else .error .typeError

/-- `df[[names]]` column selection, raising like polars when a name is
missing. -/
def DataFrame.selectE (df : DataFrame) (names : List String) : Except CocoErr DataFrame :=
  if names.all (fun nm => df.columns.contains nm) then
    .ok { columns := names,
          rows := df.rows.map (fun r =>
            names.map (fun nm =>
              match df.colIdx nm with
              | some j => r.getD j 0
              | none => 0)) }
  else .error (.colNotFound "select")

/-- `Result` (result.py lines 78-127): one algorithm's trace on one
problem. -/
structure Result where
  algorithm : String
  problem : ProblemDescription
  data : DataFrame
deriving Repr, DecidableEq

/-- The rename step of `Result.__init__` (result.py lines 93-99): rename
`fevals_column` to `"__fevals"`; if absent, warn and rename the first column
instead.  (On a frame with no columns at all Python would raise `IndexError`;
the model returns the frame unchanged there.) -/
def renameFevals (data : DataFrame) (fevals_column : String) : DataFrame :=
  if fevals_column = "__fevals" then data
  else
    match data.rename fevals_column "__fevals" with
    | some d => d
    | none =>
      match data.rename (data.columns.headD "") "__fevals" with
      | some d => d
      | none => data

/-- `Result.__init__` (result.py lines 81-109): rename the evaluation-count
column, sort by it, attach the evaluations-per-dimension column. -/
def Result.init (algorithm : String) (problem : ProblemDescription)
    (data : DataFrame) (fevals_column : String) : Result :=
  let d1 := renameFevals data fevals_column
  let d2 := d1.sortBy "__fevals"
  let d3 := d2.withFevalsDim problem.number_of_variables
  { algorithm := algorithm, problem := problem, data := d3 }

/-- `self.indicators` (result.py line 109): all columns except the two
reserved ones.  The set is represented by the column sublist. -/
def Result.indicators (r : Result) : List String :=
  r.data.columns.filter (fun c => !(c == "__fevals" || c == "__fevals_dim"))

/-- Python `set` equality on string lists. -/
def strSetEq (a b : List String) : Bool :=
  a.all (fun x => b.contains x) && b.all (fun x => a.contains x)

/-- Running maximum with accumulator (`Series.cum_max`). -/
def cumMaxFrom (best : Rat) : List Rat → List Rat
  | [] => []
  | x :: xs => let b := max best x; b :: cumMaxFrom b xs

/-- `Series.cum_max`. -/
def cumMax : List Rat → List Rat
  | [] => []
  | x :: xs => x :: cumMaxFrom x xs

/-- Running minimum with accumulator (`Series.cum_min`). -/
def cumMinFrom (best : Rat) : List Rat → List Rat
  | [] => []
  | x :: xs => let b := min best x; b :: cumMinFrom b xs

/-- `Series.cum_min`. -/
def cumMin : List Rat → List Rat
  | [] => []
  | x :: xs => x :: cumMinFrom x xs

/-- Exit condition of the scanning `while` loops in `at_indicator`
(result.py lines 152-157): the running-best value satisfies the target. -/
def satisfies (larger : Bool) (v t : Rat) : Bool :=
  if larger then decide (t ≤ v) else decide (v ≤ t)

/-- Walk of the scanning `while` loop over the remaining suffix of the
running-best sequence, carrying the absolute cursor position. -/
def advanceFrom (larger : Bool) (target : Rat) : List Rat → Nat → Option Nat
  | [], _ => none
  | v :: vs, idx =>
    if satisfies larger v target then some idx
    else advanceFrom larger target vs (idx + 1)

/-- The `while ivals[indicator_idx] < target: indicator_idx += 1` loop:
advance the shared cursor to the first position at or after `idx` whose
running-best value satisfies the target; `none` models the `IndexError` when
the cursor runs off the end. -/
def advanceIdx (larger : Bool) (ivals : List Rat) (target : Rat) (idx : Nat) : Option Nat :=
  advanceFrom larger target (ivals.drop idx) idx

/-- The `for i, target in enumerate(targets)` loop of `at_indicator`
(result.py lines 147-161), producing the `(target_fvals[i], target_hit[i])`
pairs.  The `except IndexError` around the whole loop leaves every remaining
entry at its initialisation `(fvals.max(), 0)`. -/
def atIndicatorLoop (larger : Bool) (ivals fvals : List Rat) (fmax : Rat) :
    Nat → List Rat → List (Rat × Rat)
  | _, [] => []
  | idx, t :: ts =>
    match advanceIdx larger ivals t idx with
    | some j => (fvals.getD j 0, 1) :: atIndicatorLoop larger ivals fvals fmax j ts
    | none => (t :: ts).map (fun _ => (fmax, (0 : Rat)))

/-- `Result.at_indicator` (result.py lines 129-173).  `typeError` models the
Python `TypeError` from `fvals.max() * np.ones(...)` when the trace is empty
(`max()` of an empty polars series is `None`). -/
def Result.at_indicator (r : Result) (indicator : IndicatorArg) (targets : List Rat) :
    Except CocoErr Result := do
  let indicator ← resolve indicator
  if indicator.name ∈ r.indicators then
    let fvals := r.data.getCol "__fevals"
    let ivals :=
      if indicator.larger_is_better then cumMax (r.data.getCol indicator.name)
      else cumMin (r.data.getCol indicator.name)
    match fvals.max? with
    | none => throw .typeError
    | some fmax =>
      let out := atIndicatorLoop indicator.larger_is_better ivals fvals fmax 0 targets
      .ok (Result.init r.algorithm r.problem
        { columns := ["fevals", indicator.name, "__target_hit"],
          rows := (targets.zip out).map (fun p => [p.2.1, p.1, p.2.2]) }
        "fevals")
  else throw (.noSuchIndicator indicator.name)

/-- Python `set.add` on an insertion-ordered duplicate-free list. -/
def insertSet {α : Type} [DecidableEq α] (l : List α) (x : α) : List α :=
  if x ∈ l then l else l ++ [x]

/-- Insertion-ordered deduplication (building a Python `set` element by
element). -/
def dedupList {α : Type} [DecidableEq α] (l : List α) : List α :=
  l.foldl insertSet []

/-- `ResultSet` (result.py lines 202-313): the stored results plus the
incrementally maintained summary sets.  `problem_classes` and
`problem_instances` are initialised and never updated by `append`, exactly as
in the source. -/
structure ResultSet where
  algorithms : List String
  problems : List ProblemDescription
  problem_classes : List String
  problem_instances : List String
  number_of_variables : List Int
  number_of_objectives : List Int
  results : List Result
deriving Repr, DecidableEq

/-- `ResultSet()` with no results. -/
def ResultSet.empty : ResultSet := ⟨[], [], [], [], [], [], []⟩

/-- The mutation part of `ResultSet.append` (result.py lines 229-234), after
the indicator check has passed. -/
def ResultSet.appendUnchecked (rs : ResultSet) (result : Result) : ResultSet :=
  { rs with
    algorithms := insertSet rs.algorithms result.algorithm,
    problems := insertSet rs.problems result.problem,
    number_of_variables := insertSet rs.number_of_variables result.problem.number_of_variables,
    number_of_objectives := insertSet rs.number_of_objectives result.problem.number_of_objectives,
    results := rs.results ++ [result] }

/-- `ResultSet.append` (result.py lines 224-234): raise
`IndicatorMismatchException` when the newcomer's indicator set differs from
the first member's; the check precedes every state update, so an error leaves
the set untouched. -/
def ResultSet.append (rs : ResultSet) (result : Result) : Except CocoErr ResultSet :=
  match rs.results.head? with
  | some r0 =>
    if strSetEq r0.indicators result.indicators then .ok (rs.appendUnchecked result)
    else .error (.indicatorMismatch "Indicators in results don't match")
  | none => .ok (rs.appendUnchecked result)

/-- Appending a list of results one by one (the `ResultSet.__init__` loop,
and the subset-building loops of the grouping operations). -/
def ResultSet.appendList (rs : ResultSet) : List Result → Except CocoErr ResultSet
  | [] => .ok rs
  | r :: rest => do
    let rs' ← rs.append r
    rs'.appendList rest

/-- `sorted` on Python strings: lexicographic by code point, via Mathlib's
linear order on `String`. -/
def sortedStrings (l : List String) : List String :=
  l.insertionSort (fun a b => a ≤ b)

/-- `sorted` on `ProblemDescription`s (dataclass `order=True`). -/
def sortedProblems (l : List ProblemDescription) : List ProblemDescription :=
  l.insertionSort (fun p q => ProblemDescription.le p q = true)

/-- The body of `ResultSet.by_algorithm` (result.py lines 256-264): for each
key, collect the matching results into a fresh `ResultSet` via `append` and
keep the group only when non-empty. -/
def byAlgorithmAux (results : List Result) :
    List String → Except CocoErr (List (String × ResultSet))
  | [] => .ok []
  | a :: rest => do
    let ss ← ResultSet.empty.appendList (results.filter (fun r => r.algorithm == a))
    let tail ← byAlgorithmAux results rest
    if ss.results.length > 0 then .ok ((a, ss) :: tail) else .ok tail

/-- `ResultSet.by_algorithm`: groups keyed by the sorted algorithm set. -/
def ResultSet.by_algorithm (rs : ResultSet) : Except CocoErr (List (String × ResultSet)) :=
  byAlgorithmAux rs.results (sortedStrings rs.algorithms)

/-- The body of `ResultSet.by_problem` (result.py lines 266-274). -/
def byProblemAux (results : List Result) :
    List ProblemDescription → Except CocoErr (List (ProblemDescription × ResultSet))
  | [] => .ok []
  | p :: rest => do
    let ss ← ResultSet.empty.appendList (results.filter (fun r => r.problem == p))
    let tail ← byProblemAux results rest
    if ss.results.length > 0 then .ok ((p, ss) :: tail) else .ok tail

/-- `ResultSet.by_problem`: groups keyed by the sorted problem set. -/
def ResultSet.by_problem (rs : ResultSet) : Except CocoErr (List (ProblemDescription × ResultSet)) :=
  byProblemAux rs.results (sortedProblems rs.problems)

/-- `np.linspace(low, high, n)` with `endpoint=True`, exact over `Rat`.
`n = 1` yields `[low]`; for `n ≥ 2` the step is `(high - low) / (n - 1)`. -/
def linspace (low high : Rat) (n : Nat) : List Rat :=
  if n = 1 then [low]
  else (List.range n).map
    (fun i : Nat => low + (high - low) * (i : Rat) / ((n : Rat) - 1))

/-- The per-problem loop of `linear_targets` (targets.py lines 36-48),
building the target dictionary in group order. -/
def linearTargetsLoop (ind : Indicator) (n : Nat) :
    List (ProblemDescription × ResultSet) →
    Except CocoErr (List (ProblemDescription × List Rat))
  | [] => .ok []
  | (desc, prs) :: rest => do
    let df ← plConcat (prs.results.map (fun r => r.data))
    let vals ← df.getColE ind.name
    match vals.min?, vals.max? with
    | some low, some high =>
      let ts :=
        if low = high then linspace low high 1
        else if ind.larger_is_better then linspace low high n
        else linspace high low n
      let tail ← linearTargetsLoop ind n rest
      .ok ((desc, ts) :: tail)
    | _, _ => .error .typeError

/-- `linear_targets` (targets.py lines 31-50).  An empty pooled column leaves
polars `min`/`max` at `None` and `np.linspace` then raises; that path is the
`typeError` branch of the loop. -/
def linear_targets (results : ResultSet) (indicator : IndicatorArg) (number_of_targets : Nat) :
    Except CocoErr (List (ProblemDescription × List Rat)) := do
  let indicator ← resolve indicator
  let groups ← results.by_problem
  linearTargetsLoop indicator number_of_targets groups

/-- `targets[r.problem]`: Python dict lookup, `KeyError` when absent. -/
def dictGet (d : List (ProblemDescription × List Rat)) (k : ProblemDescription) :
    Except CocoErr (List Rat) :=
  match d.find? (fun kv => kv.1 == k) with
  | some kv => .ok kv.2
  | none => .error .keyError

/-- Falsiness of the `targets` argument of `runtime_profiles`: Python
`not targets` is true for both `None` and the empty dict. -/
def targetsFalsy (targets : Option (List (ProblemDescription × List Rat))) : Bool :=
  match targets with
  | none => true
  | some d => d.isEmpty

/-- The `for r in results: indicator_results.append(r.at_indicator(...))`
loop of `runtime_profiles` (rtp.py lines 58-60). -/
def mapAtIndicator (indicator : Indicator) (targets : List (ProblemDescription × List Rat))
    (acc : ResultSet) : List Result → Except CocoErr ResultSet
  | [] => .ok acc
  | r :: rest => do
    let ts ← dictGet targets r.problem
    let ir ← r.at_indicator (.ind indicator) ts
    let acc' ← acc.append ir
    mapAtIndicator indicator targets acc' rest

/-- The `rtlist` accumulation loop of `runtime_profiles` (rtp.py lines
73-76): select the `(__fevals_dim, __target_hit)` columns of each derived
result in order. -/
def selectFrames : List Result → Except CocoErr (List DataFrame)
  | [] => .ok []
  | ar :: rest => do
    let f ← ar.data.selectE ["__fevals_dim", "__target_hit"]
    let fs ← selectFrames rest
    .ok (f :: fs)

/-- The repetition-count check of `runtime_profiles` (rtp.py lines 68-71):
on the first group `n_results` is taken from the group size, afterwards a
differing size raises `BadRuntimeProfileException` whose message interpolates
the expected count, the algorithm name, and `len(results)` of the enclosing
call (`foundLen`). -/
def rtpCheck (foundLen : Nat) (algo : String) (len : Nat) :
    Option Nat → Except CocoErr Nat
  | none => .ok len
  | some n =>
    if n ≠ len then .error (.badRuntimeProfileReps n algo foundLen)
    else .ok n

/-- The per-algorithm loop of `runtime_profiles` (rtp.py lines 62-87):
check the repetition count against the first group, pool the
`(__fevals_dim, __target_hit)` columns and hand the censored sample to the
ECDF estimator.  `ecdf` abstracts the external collaborator
`scipy.stats.ecdf` over a `CensoredData(uncensored, right=censored)`
sample. -/
def rtpFold (ecdf : List Rat → List Rat → List Rat × List Rat) (foundLen : Nat) :
    Option Nat → List (String × ResultSet) →
    Except CocoErr (List (String × (List Rat × List Rat)))
  | _, [] => .ok []
  | nResults, (algo, algoResults) :: rest => do
    let n ← rtpCheck foundLen algo algoResults.results.length nResults
    let rtframes ← selectFrames algoResults.results
    let runtimes ← plConcat rtframes
    let pairs := (runtimes.getCol "__fevals_dim").zip (runtimes.getCol "__target_hit")
    let uncensored := (pairs.filter (fun p => decide (0 < p.2))).map (fun p => p.1)
    let censored := (pairs.filter (fun p => p.2 == 0)).map (fun p => p.1)
    let cdf := ecdf uncensored censored
    let tail ← rtpFold ecdf foundLen (some n) rest
    .ok ((algo, cdf) :: tail)

/-- `runtime_profiles` (rtp.py lines 17-88).  The ECDF estimator of scipy is
an out-of-scope external collaborator (spec section 1) and is passed in as a
function argument; everything else follows the source. -/
def runtime_profiles (ecdf : List Rat → List Rat → List Rat × List Rat)
    (results : ResultSet) (indicator : IndicatorArg) (number_of_targets : Nat)
    (targets : Option (List (ProblemDescription × List Rat))) :
    Except CocoErr (List (String × (List Rat × List Rat))) := do
  let indicator ← resolve indicator
  if results.number_of_variables.length > 1 then
    throw .badRuntimeProfileVars
  else if results.number_of_objectives.length > 1 then
    throw .badRuntimeProfileObjs
  else
    let tgts ←
      if targetsFalsy targets then
        linear_targets results (.ind indicator) number_of_targets
      else pure (targets.getD [])
    let indicatorResults ← mapAtIndicator indicator tgts ResultSet.empty results.results
    let groups ← indicatorResults.by_algorithm
    rtpFold ecdf results.results.length none groups

/-- Spec-side definition, following the spec's words for comparison with the
code: "the smallest evaluation count at which the indicator's running-best
value first reaches or exceeds (or, for minimize-polarity indicators, falls
to or below) that target", i.e. the minimum of the evaluation counts over the
rows whose running-best value satisfies the target, `none` when no row
does. -/
def specSmallestCrossingFeval (larger : Bool) (fvals rawIvals : List Rat) (t : Rat) :
    Option Rat :=
  let runbest := if larger then cumMax rawIvals else cumMin rawIvals
  (((fvals.zip runbest).filter (fun p => satisfies larger p.2 t)).map (fun p => p.1)).min?

/-- The summary fields of a `ResultSet` mirror its stored results, and all
stored results have pairwise equal indicator sets — exactly the state of a
`ResultSet` assembled through `append`. -/
def ResultSet.Mirrors (rs : ResultSet) : Prop :=
  rs.algorithms = dedupList (rs.results.map (fun r => r.algorithm)) ∧
  rs.problems = dedupList (rs.results.map (fun r => r.problem)) ∧
  rs.number_of_variables = dedupList (rs.results.map (fun r => r.problem.number_of_variables)) ∧
  rs.number_of_objectives = dedupList (rs.results.map (fun r => r.problem.number_of_objectives)) ∧
  ∀ r ∈ rs.results, ∀ s ∈ rs.results, strSetEq r.indicators s.indicators = true

/-- Consecutive differences of a target sequence are all equal to `d`. -/
def EvenlySpaced (ts : List Rat) (d : Rat) : Prop :=
  ∀ j : Nat, j + 1 < ts.length → ts.getD (j + 1) 0 - ts.getD j 0 = d

/-- The raw trace of spec section 8, property 1: evaluation counts
`[1,2,3,10,20,50,100]` against `hypervolume` values `[10,...,70]`. -/
def sampleData : DataFrame :=
  { columns := ["fevals", "hypervolume"],
    rows := [[1, 10], [2, 20], [3, 30], [10, 40], [20, 50], [50, 60], [100, 70]] }

/-- A concrete benchmark problem for the examples. -/
def sampleProblem : ProblemDescription := ⟨"f1", "1", 2, 1⟩

/-- The `Result` built from the sample trace. -/
def sampleResult : Result := Result.init "algo" sampleProblem sampleData "fevals"

/-- A second result whose only indicator column is `r2`, deliberately
mismatching `sampleResult`'s indicator set. -/
def sampleResultR2 : Result :=
  Result.init "algo2" sampleProblem { columns := ["fevals", "r2"], rows := [[1, 5]] } "fevals"

/-- A trace with tied evaluation counts and out-of-order input, exercising
sort stability at construction time. -/
def tiedData : DataFrame :=
  { columns := ["fevals", "hypervolume"], rows := [[3, 1], [1, 2], [3, 3], [2, 4]] }

/-- One-row trace of algorithm `a` on the sample problem (hypervolume 1). -/
def c7r1 : Result :=
  Result.init "a" sampleProblem { columns := ["fevals", "hypervolume"], rows := [[1, 1]] }
    "fevals"

/-- One-row trace of algorithm `b` on the sample problem (hypervolume 3). -/
def c7r2 : Result :=
  Result.init "b" sampleProblem { columns := ["fevals", "hypervolume"], rows := [[1, 3]] }
    "fevals"

/-- Two algorithms on the same problem, pooling hypervolume values 1 and 3. -/
def c7rs : ResultSet := (ResultSet.empty.appendUnchecked c7r1).appendUnchecked c7r2

/-- The pooled frame of `c7rs`'s single problem group. -/
def c7df : DataFrame :=
  { columns := ["__fevals", "hypervolume", "__fevals_dim"],
    rows := [[1, 1, 1/2], [1, 3, 1/2]] }

/-- A stand-in ECDF estimator for instantiating the runtime-profile
theorems; the estimator is an external collaborator, so any function of the
right type will do. -/
def ecdf0 : List Rat → List Rat → List Rat × List Rat := fun _ _ => ([], [])

/-- The `hypervolume` indicator record. -/
def hvInd : Indicator := ⟨"hypervolume", "Hypervolume", true⟩

/-- A one-row trace with a `hypervolume` column. -/
def c4data : DataFrame := { columns := ["fevals", "hypervolume"], rows := [[1, 10]] }

/-- The sample problem in dimension 3 instead of 2. -/
def c4p3 : ProblemDescription := ⟨"f1", "1", 3, 1⟩

/-- The sample problem with 2 objectives instead of 1. -/
def c4p2obj : ProblemDescription := ⟨"f1", "1", 2, 2⟩

/-- Two results whose problems disagree in `number_of_variables`. -/
def c4varsRS : ResultSet :=
  (ResultSet.empty.appendUnchecked
      (Result.init "a" sampleProblem c4data "fevals")).appendUnchecked
    (Result.init "a" c4p3 c4data "fevals")

/-- Two results whose problems disagree in `number_of_objectives`. -/
def c4objsRS : ResultSet :=
  (ResultSet.empty.appendUnchecked
      (Result.init "a" sampleProblem c4data "fevals")).appendUnchecked
    (Result.init "a" c4p2obj c4data "fevals")

/-- Algorithm `a` with one run and algorithm `b` with two runs on the same
problem: unequal repetition counts. -/
def c4rs : ResultSet :=
  ((ResultSet.empty.appendUnchecked
        (Result.init "a" sampleProblem c4data "fevals")).appendUnchecked
      (Result.init "b" sampleProblem c4data "fevals")).appendUnchecked
    (Result.init "b" sampleProblem c4data "fevals")

/-- Explicit target dictionary for `c4rs`. -/
def c4dict : List (ProblemDescription × List Rat) := [(sampleProblem, [5])]

/-- The derived result set of `c4rs` at the hypervolume targets. -/
def c4irs : ResultSet :=
  match mapAtIndicator hvInd c4dict ResultSet.empty c4rs.results with
  | .ok s => s
  | .error _ => ResultSet.empty

/-- The per-algorithm groups of `c4irs`, spelled with the sorted key list
`["a", "b"]` written out. -/
def c4groups : List (String × ResultSet) :=
  match byAlgorithmAux c4irs.results ["a", "b"] with
  | .ok gs => gs
  | .error _ => []

/-- The first per-algorithm group of `c4irs`. -/
def c4g0 : String × ResultSet := c4groups.headD ("", ResultSet.empty)

/-- The remaining per-algorithm groups of `c4irs`. -/
def c4gs : List (String × ResultSet) := c4groups.tail

/-!  ## Theorems  -/

/-- `Except.ok` on the left of a bind reduces. -/
theorem except_bind_ok {α β ε : Type} (a : α) (f : α → Except ε β) :
    (Except.ok a >>= f : Except ε β) = f a := rfl

/-- `throw` on `Except` is `Except.error`. -/
theorem except_throw {α ε : Type} (e : ε) : (throw e : Except ε α) = .error e := rfl

/-- `pure` on `Except` is `Except.ok`. -/
theorem except_pure {α ε : Type} (a : α) : (pure a : Except ε α) = .ok a := rfl

/-- A successful `rename` never touches the row data. -/
theorem rename_rows {d : DataFrame} {old new : String} {e : DataFrame}
    (h : d.rename old new = some e) : e.rows = d.rows := by
  unfold DataFrame.rename at h
  split at h
  · cases h; rfl
  · cases h

/-- A successful `rename` preserves the number of columns. -/
theorem rename_columns_length {d : DataFrame} {old new : String} {e : DataFrame}
    (h : d.rename old new = some e) : e.columns.length = d.columns.length := by
  unfold DataFrame.rename at h
  split at h
  · cases h; simp
  · cases h

/-- The rename step never touches the row data. -/
theorem renameFevals_rows (d : DataFrame) (fc : String) :
    (renameFevals d fc).rows = d.rows := by
  unfold renameFevals
  split
  · rfl
  · cases h1 : d.rename fc "__fevals" with
    | some e => exact rename_rows h1
    | none =>
      cases h2 : d.rename (d.columns.headD "") "__fevals" with
      | some e => exact rename_rows h2
      | none => rfl

/-- The rename step preserves the number of columns. -/
theorem renameFevals_columns_length (d : DataFrame) (fc : String) :
    (renameFevals d fc).columns.length = d.columns.length := by
  unfold renameFevals
  split
  · rfl
  · cases h1 : d.rename fc "__fevals" with
    | some e => exact rename_columns_length h1
    | none =>
      cases h2 : d.rename (d.columns.headD "") "__fevals" with
      | some e => exact rename_columns_length h2
      | none => rfl

/-- A found column index is within the column list. -/
theorem colIdx_lt_length {d : DataFrame} {n : String} {i : Nat}
    (h : d.colIdx n = some i) : i < d.columns.length := by
  unfold DataFrame.colIdx at h
  obtain ⟨hi, -, -⟩ := List.findIdx?_eq_some_iff_getElem.mp h
  exact hi

/-- Sorting leaves the column list unchanged. -/
theorem sortBy_columns (d : DataFrame) (n : String) :
    (d.sortBy n).columns = d.columns := by
  unfold DataFrame.sortBy
  split <;> rfl

/-- Sorting does not change which index a column has. -/
theorem sortBy_colIdx (d : DataFrame) (n m : String) :
    (d.sortBy n).colIdx m = d.colIdx m := by
  unfold DataFrame.colIdx
  rw [sortBy_columns]

/-- Row set of a sorted frame, when the key column exists. -/
theorem sortBy_rows {d : DataFrame} {n : String} {i : Nat} (h : d.colIdx n = some i) :
    (d.sortBy n).rows = d.rows.insertionSort (fun r s => r.getD i 0 ≤ s.getD i 0) := by
  unfold DataFrame.sortBy
  rw [h]

/-- Attaching `__fevals_dim` appends one column at the end, so the
evaluation-count column keeps its index. -/
theorem withFevalsDim_colIdx {d : DataFrame} {i : Nat} (v : Int)
    (h : d.colIdx "__fevals" = some i) :
    (d.withFevalsDim v).colIdx "__fevals" = some i := by
  unfold DataFrame.withFevalsDim
  rw [h]
  unfold DataFrame.colIdx at h ⊢
  simp [h]

/-- Rows of a frame after attaching `__fevals_dim`. -/
theorem withFevalsDim_rows {d : DataFrame} {i : Nat} (v : Int)
    (h : d.colIdx "__fevals" = some i) :
    (d.withFevalsDim v).rows = d.rows.map (fun r => r ++ [r.getD i 0 / (v : Rat)]) := by
  unfold DataFrame.withFevalsDim
  rw [h]

/-- Columns of a frame after attaching `__fevals_dim`. -/
theorem withFevalsDim_columns {d : DataFrame} {i : Nat} (v : Int)
    (h : d.colIdx "__fevals" = some i) :
    (d.withFevalsDim v).columns = d.columns ++ ["__fevals_dim"] := by
  unfold DataFrame.withFevalsDim
  rw [h]

/-- The output frame handed to the `Result` constructor by `at_indicator`. -/
def atIndicatorFrame (ind : Indicator) (targets : List Rat) (r : Result) (fmax : Rat) :
    DataFrame :=
  { columns := ["fevals", ind.name, "__target_hit"],
    rows := (targets.zip (atIndicatorLoop ind.larger_is_better
      (if ind.larger_is_better then cumMax (r.data.getCol ind.name)
       else cumMin (r.data.getCol ind.name))
      (r.data.getCol "__fevals") fmax 0 targets)).map (fun p => [p.2.1, p.1, p.2.2]) }

/-- Characterisation of a successful `at_indicator` call on an already
resolved indicator. -/
theorem at_indicator_ok_char {r : Result} {ind : Indicator} {targets : List Rat} {r' : Result}
    (hok : r.at_indicator (.ind ind) targets = .ok r') :
    ind.name ∈ r.indicators ∧
    ∃ fmax, (r.data.getCol "__fevals").max? = some fmax ∧
      r' = Result.init r.algorithm r.problem (atIndicatorFrame ind targets r fmax) "fevals" := by
  by_cases hmem : ind.name ∈ r.indicators
  · cases hmax : (r.data.getCol "__fevals").max? with
    | none =>
      have hval : r.at_indicator (.ind ind) targets = .error .typeError := by
        unfold Result.at_indicator
        rw [show resolve (.ind ind) = .ok ind from rfl, except_bind_ok]
        simp [hmem, hmax, except_throw]
      rw [hval] at hok
      cases hok
    | some fmax =>
      have hval : r.at_indicator (.ind ind) targets
          = .ok (Result.init r.algorithm r.problem (atIndicatorFrame ind targets r fmax)
              "fevals") := by
        unfold Result.at_indicator
        rw [show resolve (.ind ind) = .ok ind from rfl, except_bind_ok]
        simp [hmem, hmax, atIndicatorFrame]
      rw [hval] at hok
      injection hok with h
      subst h
      exact ⟨hmem, fmax, rfl, rfl⟩
  · have hval : r.at_indicator (.ind ind) targets = .error (.noSuchIndicator ind.name) := by
      unfold Result.at_indicator
      rw [show resolve (.ind ind) = .ok ind from rfl, except_bind_ok]
      simp [hmem, except_throw]
    rw [hval] at hok
    cases hok

/-- C5 counterexample: the sort the constructor performs is polars
`DataFrame.sort` under its default `maintain_order=False`, and that contract
does not determine the relative order of tied rows.  On the renamed tied
sample trace (evaluation counts `[3,1,3,2]`, rows tied at count 3) two
different row orders both satisfy the documented contract, so the stable
input order asserted by the claim is not a consequence of the program. -/
theorem C5_counterexample :
    PolarsSortedByKey (renameFevals tiedData "fevals")
      { columns := ["__fevals", "hypervolume"],
        rows := [[1, 2], [2, 4], [3, 1], [3, 3]] } 0 ∧
    PolarsSortedByKey (renameFevals tiedData "fevals")
      { columns := ["__fevals", "hypervolume"],
        rows := [[1, 2], [2, 4], [3, 3], [3, 1]] } 0 ∧
    ([[1, 2], [2, 4], [3, 1], [3, 3]] : List (List Rat))
      ≠ [[1, 2], [2, 4], [3, 3], [3, 1]] :=
  ⟨⟨by decide, by decide, by decide⟩, ⟨by decide, by decide, by decide⟩, by decide⟩

/-- C5 (amended): at construction time the table is sorted ascending by the
evaluation-count column, and its rows are exactly the renamed input rows
with the derived `__fevals_dim` entry appended, up to permutation — the two
guarantees of polars' default sort contract, propagated through the
constructor.  The original claim's stability half is dropped: the source
sorts with `maintain_order=False`, which leaves the relative order of tied
rows unspecified.  `i` is the index of the evaluation-count column after the
rename step and `hrect` says no row is shorter than the header. -/
theorem C5_table_sorted_ascending (algorithm : String) (problem : ProblemDescription)
    (data : DataFrame) (fevals_column : String) (i : Nat)
    (hidx : (renameFevals data fevals_column).colIdx "__fevals" = some i)
    (hrect : ∀ row ∈ data.rows, data.columns.length ≤ row.length) :
    ((Result.init algorithm problem data fevals_column).data.getCol "__fevals").Sorted (· ≤ ·)
    ∧ (Result.init algorithm problem data fevals_column).data.rows.Perm
        ((renameFevals data fevals_column).rows.map
          (fun r => r ++ [r.getD i 0 / (problem.number_of_variables : Rat)])) := by
  haveI hTot : IsTotal (List Rat) (fun r s => r.getD i 0 ≤ s.getD i 0) :=
    ⟨fun a b => le_total _ _⟩
  haveI hTrans : IsTrans (List Rat) (fun r s => r.getD i 0 ≤ s.getD i 0) :=
    ⟨fun a b c hab hbc => le_trans hab hbc⟩
  set d1 := renameFevals data fevals_column with hd1
  have hd2rows : (d1.sortBy "__fevals").rows
      = d1.rows.insertionSort (fun r s => r.getD i 0 ≤ s.getD i 0) := sortBy_rows hidx
  have hd2idx : (d1.sortBy "__fevals").colIdx "__fevals" = some i := by
    rw [sortBy_colIdx]; exact hidx
  have hd3rows : ((d1.sortBy "__fevals").withFevalsDim problem.number_of_variables).rows
      = (d1.sortBy "__fevals").rows.map
          (fun r => r ++ [r.getD i 0 / (problem.number_of_variables : Rat)]) :=
    withFevalsDim_rows _ hd2idx
  have hd3idx : ((d1.sortBy "__fevals").withFevalsDim
      problem.number_of_variables).colIdx "__fevals" = some i :=
    withFevalsDim_colIdx _ hd2idx
  have hinit : (Result.init algorithm problem data fevals_column).data
      = (d1.sortBy "__fevals").withFevalsDim problem.number_of_variables := rfl
  have hlen : ∀ row ∈ d1.rows.insertionSort (fun r s => r.getD i 0 ≤ s.getD i 0),
      i < row.length := by
    intro row hr
    have hmem : row ∈ d1.rows := (List.perm_insertionSort _ _).mem_iff.mp hr
    rw [hd1, renameFevals_rows] at hmem
    have h1 := hrect row hmem
    have hi : i < d1.columns.length := colIdx_lt_length hidx
    rw [hd1, renameFevals_columns_length] at hi
    omega
  constructor
  · rw [hinit]
    simp only [DataFrame.getCol, hd3idx, hd3rows, hd2rows, List.map_map]
    have heq : (d1.rows.insertionSort (fun r s => r.getD i 0 ≤ s.getD i 0)).map
          ((fun r => r.getD i 0) ∘
            (fun r => r ++ [r.getD i 0 / (problem.number_of_variables : Rat)]))
        = (d1.rows.insertionSort (fun r s => r.getD i 0 ≤ s.getD i 0)).map
            (fun r => r.getD i 0) := by
      apply List.map_congr_left
      intro row hr
      simp only [Function.comp]
      exact List.getD_append _ _ _ _ (hlen row hr)
    rw [heq]
    have hs := List.sorted_insertionSort (fun r s => r.getD i 0 ≤ s.getD i 0) d1.rows
    exact (List.pairwise_map).mpr hs
  · rw [hinit, hd3rows, hd2rows]
    exact (List.perm_insertionSort _ _).map _

/-- Witness for the amended C5 on a concrete out-of-order trace with a tie
on the evaluation count 3. -/
theorem C5_table_sorted_ascending_witness :
    (((Result.init "a" sampleProblem tiedData "fevals").data.getCol "__fevals").Sorted (· ≤ ·))
    ∧ (Result.init "a" sampleProblem tiedData "fevals").data.rows.Perm
        ((renameFevals tiedData "fevals").rows.map
          (fun r => r ++ [r.getD 0 0 / (sampleProblem.number_of_variables : Rat)])) :=
  C5_table_sorted_ascending "a" sampleProblem tiedData "fevals" 0 (by rfl) (by decide)

/-- Running maxima preserve length. -/
theorem cumMaxFrom_length (b : Rat) : ∀ l : List Rat, (cumMaxFrom b l).length = l.length
  | [] => rfl
  | x :: xs => by rw [cumMaxFrom]; simpa using cumMaxFrom_length (max b x) xs

/-- `cum_max` preserves length. -/
theorem cumMax_length : ∀ l : List Rat, (cumMax l).length = l.length
  | [] => rfl
  | x :: xs => by rw [cumMax]; simpa using cumMaxFrom_length x xs

/-- Running minima preserve length. -/
theorem cumMinFrom_length (b : Rat) : ∀ l : List Rat, (cumMinFrom b l).length = l.length
  | [] => rfl
  | x :: xs => by rw [cumMinFrom]; simpa using cumMinFrom_length (min b x) xs

/-- `cum_min` preserves length. -/
theorem cumMin_length : ∀ l : List Rat, (cumMin l).length = l.length
  | [] => rfl
  | x :: xs => by rw [cumMin]; simpa using cumMinFrom_length x xs

/-- A value satisfying a harder target also satisfies any easier one. -/
theorem satisfies_mono {larger : Bool} {v t tp : Rat}
    (hord : if larger = true then t ≤ tp else tp ≤ t)
    (h : satisfies larger v tp = true) : satisfies larger v t = true := by
  cases larger
  · simp only [Bool.false_eq_true, if_false] at hord
    simp only [satisfies, Bool.false_eq_true, if_false, decide_eq_true_eq] at h ⊢
    exact h.trans hord
  · simp only [if_true] at hord
    simp only [satisfies, if_true, decide_eq_true_eq] at h ⊢
    exact hord.trans h

/-- A successful cursor walk stops at the first satisfying position of the
walked suffix. -/
theorem advanceFrom_some {larger : Bool} {t : Rat} :
    ∀ {l : List Rat} {idx j : Nat}, advanceFrom larger t l idx = some j →
      ∃ k, j = idx + k ∧ k < l.length ∧ satisfies larger (l.getD k 0) t = true ∧
        ∀ m, m < k → satisfies larger (l.getD m 0) t = false := by
  intro l
  induction l with
  | nil => intro idx j h; simp [advanceFrom] at h
  | cons v vs ih =>
    intro idx j h
    by_cases hv : satisfies larger v t
    · rw [advanceFrom, if_pos hv] at h
      injection h with h
      exact ⟨0, by omega, by simp, by simpa using hv,
        fun m hm => absurd hm (Nat.not_lt_zero m)⟩
    · rw [advanceFrom, if_neg hv] at h
      obtain ⟨k, hk1, hk2, hk3, hk4⟩ := ih h
      refine ⟨k + 1, by omega, by simp; omega, by simpa using hk3, ?_⟩
      intro m hm
      cases m with
      | zero => simpa using Bool.eq_false_iff.mpr (fun hc => hv hc)
      | succ m => simpa using hk4 m (by omega)

/-- An exhausted cursor walk found no satisfying position in the suffix. -/
theorem advanceFrom_none {larger : Bool} {t : Rat} :
    ∀ {l : List Rat} {idx : Nat}, advanceFrom larger t l idx = none →
      ∀ k, k < l.length → satisfies larger (l.getD k 0) t = false := by
  intro l
  induction l with
  | nil => intro idx _ k hk; simp at hk
  | cons v vs ih =>
    intro idx h k hk
    by_cases hv : satisfies larger v t
    · rw [advanceFrom, if_pos hv] at h; cases h
    · rw [advanceFrom, if_neg hv] at h
      cases k with
      | zero => simpa using Bool.eq_false_iff.mpr (fun hc => hv hc)
      | succ k => simpa using ih h k (by simpa using hk)

/-- Entries of a dropped suffix, by absolute index. -/
theorem getD_drop (l : List Rat) (idx n : Nat) :
    (l.drop idx).getD n 0 = l.getD (idx + n) 0 := by
  simp [List.getD_eq_getElem?_getD, List.getElem?_drop]

/-- A successful cursor advance stops at the first satisfying position at or
after the current cursor. -/
theorem advanceIdx_some {larger : Bool} {ivals : List Rat} {t : Rat} {idx j : Nat}
    (h : advanceIdx larger ivals t idx = some j) :
    idx ≤ j ∧ j < ivals.length ∧ satisfies larger (ivals.getD j 0) t = true ∧
      ∀ m, idx ≤ m → m < j → satisfies larger (ivals.getD m 0) t = false := by
  unfold advanceIdx at h
  obtain ⟨k, rfl, hk2, hk3, hk4⟩ := advanceFrom_some h
  rw [List.length_drop] at hk2
  rw [getD_drop] at hk3
  refine ⟨Nat.le_add_right _ _, by omega, hk3, ?_⟩
  intro m hm1 hm2
  have h1 := hk4 (m - idx) (by omega)
  rw [getD_drop] at h1
  rwa [show idx + (m - idx) = m by omega] at h1

/-- An exhausted cursor advance found no satisfying position at or after the
current cursor. -/
theorem advanceIdx_none {larger : Bool} {ivals : List Rat} {t : Rat} {idx : Nat}
    (h : advanceIdx larger ivals t idx = none) :
    ∀ m, idx ≤ m → m < ivals.length → satisfies larger (ivals.getD m 0) t = false := by
  unfold advanceIdx at h
  intro m hm1 hm2
  have h1 := advanceFrom_none h (m - idx) (by rw [List.length_drop]; omega)
  rw [getD_drop] at h1
  rwa [show idx + (m - idx) = m by omega] at h1

/-- The loop produces one output pair per target. -/
theorem atIndicatorLoop_length (larger : Bool) (ivals fvals : List Rat) (fmax : Rat) :
    ∀ (targets : List Rat) (idx : Nat),
      (atIndicatorLoop larger ivals fvals fmax idx targets).length = targets.length := by
  intro targets
  induction targets with
  | nil => intro idx; rfl
  | cons t ts ih =>
    intro idx
    rw [atIndicatorLoop]
    cases advanceIdx larger ivals t idx with
    | some j => simpa using ih j
    | none => simp

/-- `getD` on a constant-map list. -/
theorem getD_map_const {α β : Type} (l : List α) (c d : β) :
    ∀ p, p < l.length → (l.map (fun _ => c)).getD p d = c := by
  intro p hp
  rw [List.getD_eq_getElem _ _ (by simpa using hp), List.getElem_map]

/-- Core loop invariant argument: when the targets are ordered
easiest-to-hardest and no position strictly before the cursor satisfies any
remaining target, each output entry is determined by the globally first
satisfying position of its target — hit with the evaluation count there, or
censored at `fmax` when no position satisfies it. -/
theorem atIndicatorLoop_char {larger : Bool} {ivals fvals : List Rat} {fmax : Rat} :
    ∀ (targets : List Rat) (idx : Nat),
    targets.Pairwise (fun a b => if larger = true then a ≤ b else b ≤ a) →
    (∀ t ∈ targets, ∀ m, m < idx → satisfies larger (ivals.getD m 0) t = false) →
    ∀ p, p < targets.length →
      (atIndicatorLoop larger ivals fvals fmax idx targets).getD p (0, 0)
        = match ivals.findIdx? (fun v => satisfies larger v (targets.getD p 0)) with
          | some j => (fvals.getD j 0, 1)
          | none => (fmax, 0) := by
  intro targets
  induction targets with
  | nil => intro idx _ _ p hp; simp at hp
  | cons t ts ih =>
    intro idx hmono hinv p hp
    rw [atIndicatorLoop]
    cases hadv : advanceIdx larger ivals t idx with
    | some j =>
      obtain ⟨hj1, hj2, hj3, hj4⟩ := advanceIdx_some hadv
      have hfirst : ivals.findIdx? (fun v => satisfies larger v t) = some j := by
        rw [List.findIdx?_eq_some_iff_getElem]
        refine ⟨hj2, ?_, ?_⟩
        · rw [← List.getD_eq_getElem _ (0 : Rat) hj2]
          exact hj3
        · intro m hm
          rw [← List.getD_eq_getElem _ (0 : Rat) (Nat.lt_trans hm hj2)]
          by_cases hmidx : m < idx
          · simpa using hinv t (by simp) m hmidx
          · simpa using hj4 m (by omega) hm
      cases p with
      | zero =>
        simpa [List.getD_cons_zero] using by rw [hfirst]
      | succ p =>
        simp only [List.getD_cons_succ]
        refine ih j (List.Pairwise.of_cons hmono) ?_ p (by simpa using hp)
        intro tq htq m hm
        by_cases hmidx : m < idx
        · exact hinv tq (by simp [htq]) m hmidx
        · have h1 : satisfies larger (ivals.getD m 0) t = false := by
            rcases Nat.lt_or_ge m j with hmj | hmj
            · exact hj4 m (by omega) hmj
            · have : m = j := by omega
              subst this
              exact absurd hj3 (by simp_all)
          by_cases h2 : satisfies larger (ivals.getD m 0) tq = true
          · have hord := (List.pairwise_cons.mp hmono).1 tq htq
            have := satisfies_mono hord h2
            rw [this] at h1
            cases h1
          · exact Bool.eq_false_iff.mpr (fun hc => h2 hc)
    | none =>
      have hnone : ∀ tq ∈ t :: ts,
          ivals.findIdx? (fun v => satisfies larger v tq) = none := by
        intro tq htq
        rw [List.findIdx?_eq_none_iff]
        intro x hx
        obtain ⟨m, hmlen, rfl⟩ := List.mem_iff_getElem.mp hx
        rw [← List.getD_eq_getElem _ (0 : Rat) hmlen]
        by_cases hmidx : m < idx
        · exact hinv tq htq m hmidx
        · have h1 : satisfies larger (ivals.getD m 0) t = false :=
            advanceIdx_none hadv m (by omega) hmlen
          rcases List.mem_cons.mp htq with rfl | htq
          · exact h1
          · by_cases h2 : satisfies larger (ivals.getD m 0) tq = true
            · have hord := (List.pairwise_cons.mp hmono).1 tq htq
              have := satisfies_mono hord h2
              rw [this] at h1
              cases h1
            · exact Bool.eq_false_iff.mpr (fun hc => h2 hc)
      rw [hnone ((t :: ts).getD p 0)
        (by rw [List.getD_eq_getElem _ _ hp]; exact List.getElem_mem _)]
      exact getD_map_const _ _ _ p hp

/-- Folding `max` over a list dominates the seed and every member. -/
theorem le_foldl_max (l : List Rat) : ∀ a : Rat,
    a ≤ l.foldl max a ∧ ∀ x ∈ l, x ≤ l.foldl max a := by
  induction l with
  | nil => intro a; exact ⟨le_refl a, by simp⟩
  | cons v vs ih =>
    intro a
    refine ⟨le_trans (le_max_left a v) (ih (max a v)).1, ?_⟩
    intro x hx
    rcases List.mem_cons.mp hx with rfl | hx
    · exact le_trans (le_max_right a x) (ih (max a x)).1
    · exact (ih (max a v)).2 x hx

/-- Every member of a list is at most its `max?`. -/
theorem mem_le_max? {l : List Rat} {m : Rat} (hm : l.max? = some m) :
    ∀ x ∈ l, x ≤ m := by
  cases l with
  | nil => cases hm
  | cons v vs =>
    rw [List.max?_cons'] at hm
    injection hm with hm
    subst hm
    intro x hx
    rcases List.mem_cons.mp hx with rfl | hx
    · exact (le_foldl_max vs x).1
    · exact (le_foldl_max vs v).2 x hx

/-- Folding `min` from a lower bound returns the bound. -/
theorem foldl_min_eq {l : List Rat} : ∀ {a : Rat}, (∀ x ∈ l, a ≤ x) →
    l.foldl min a = a := by
  induction l with
  | nil => intro a _; rfl
  | cons v vs ih =>
    intro a h
    rw [List.foldl_cons, min_eq_left (h v (by simp))]
    exact ih (fun x hx => h x (by simp [hx]))

/-- On a list of pairs whose first components are sorted ascending, the
minimum first component among the entries matching a predicate is the first
component of the first match. -/
theorem min?_filter_sorted (q : Rat × Rat → Bool) :
    ∀ (zs : List (Rat × Rat)), (zs.map (fun p => p.1)).Sorted (· ≤ ·) →
    ((zs.filter q).map (fun p => p.1)).min? = (zs.find? q).map (fun p => p.1) := by
  intro zs
  induction zs with
  | nil => intro _; rfl
  | cons z zs ih =>
    intro hs
    simp only [List.map_cons] at hs
    by_cases hq : q z
    · rw [List.filter_cons_of_pos hq, List.find?_cons_of_pos _ hq]
      simp only [List.map_cons, Option.map_some']
      rw [List.min?_cons']
      congr 1
      apply foldl_min_eq
      intro x hx
      obtain ⟨pp, hpp, rfl⟩ := List.mem_map.mp hx
      exact (List.pairwise_cons.mp hs).1 pp.1
        (List.mem_map_of_mem _ (List.mem_of_mem_filter hpp))
    · rw [List.filter_cons_of_neg hq, List.find?_cons_of_neg _ hq]
      exact ih (List.Pairwise.of_cons hs)

/-- `find?` over a zip against a predicate on the second component, in terms
of `findIdx?` on the second list. -/
theorem find?_zip_eq (q : Rat → Bool) :
    ∀ (fvals ivals : List Rat), fvals.length = ivals.length →
      (fvals.zip ivals).find? (fun p => q p.2)
        = (ivals.findIdx? q).map (fun j => (fvals.getD j 0, ivals.getD j 0)) := by
  intro fvals
  induction fvals with
  | nil =>
    intro ivals h
    cases ivals with
    | nil => rfl
    | cons v vs => simp at h
  | cons f fs ih =>
    intro ivals h
    cases ivals with
    | nil => simp at h
    | cons v vs =>
      by_cases hq : q v
      · simp [hq]
      · simp only [List.zip_cons_cons]
        rw [List.find?_cons_of_neg _ (by simpa using hq)]
        rw [ih vs (by simpa using h)]
        simp only [List.findIdx?_cons, hq, if_neg, List.findIdx?_start_succ]
        cases vs.findIdx? q with
        | none => simp
        | some j => simp

/-- The spec-side smallest crossing evaluation count equals the evaluation
count at the first satisfying position of the running-best sequence, for a
sorted evaluation-count column. -/
theorem specSmallest_eq {larger : Bool} {fvals raw : List Rat} (t : Rat)
    (hsorted : fvals.Sorted (· ≤ ·))
    (hlen : fvals.length = (if larger then cumMax raw else cumMin raw).length) :
    specSmallestCrossingFeval larger fvals raw t
      = ((if larger then cumMax raw else cumMin raw).findIdx?
          (fun v => satisfies larger v t)).map (fun j => fvals.getD j 0) := by
  unfold specSmallestCrossingFeval
  rw [min?_filter_sorted _ _ ?sortedGoal]
  case sortedGoal =>
    rw [List.map_fst_zip _ _ (by omega)]
    exact hsorted
  rw [find?_zip_eq (fun v => satisfies larger v t) _ _ hlen]
  cases (if larger then cumMax raw else cumMin raw).findIdx?
      (fun v => satisfies larger v t) with
  | none => rfl
  | some j => rfl

/-- The first position satisfying an easier target is at most the first
position satisfying a harder one. -/
theorem findIdx?_first_le {larger : Bool} {ivals : List Rat} {tp tq : Rat}
    (hord : if larger = true then tp ≤ tq else tq ≤ tp) {jq : Nat}
    (hq : ivals.findIdx? (fun v => satisfies larger v tq) = some jq) :
    ∃ jp, ivals.findIdx? (fun v => satisfies larger v tp) = some jp ∧ jp ≤ jq := by
  obtain ⟨hjq, hsatq, hminq⟩ := List.findIdx?_eq_some_iff_getElem.mp hq
  have hsome : (ivals.findIdx? (fun v => satisfies larger v tp)).isSome := by
    rw [List.findIdx?_isSome, List.any_eq_true]
    exact ⟨ivals[jq], List.getElem_mem _, satisfies_mono hord hsatq⟩
  obtain ⟨jp, hp⟩ := Option.isSome_iff_exists.mp hsome
  refine ⟨jp, hp, ?_⟩
  obtain ⟨hjp, hsatp, hminp⟩ := List.findIdx?_eq_some_iff_getElem.mp hp
  by_contra hlt
  have := hminp jq (by omega)
  exact this (satisfies_mono hord hsatq)

/-- C2 (amended): for every Result with a sorted, non-empty trace, every
indicator in its indicator set, and every target sequence ordered
easiest-to-hardest (non-decreasing for maximize polarity, non-increasing for
minimize polarity), `at_indicator` succeeds, and the row for each target
carries the smallest evaluation count at which the running-best indicator
value first satisfies the target with hit flag 1 — or, when no row satisfies
it, the maximum evaluation count of the trace with hit flag 0; moreover once
a target is unsatisfiable every subsequent target is as well, so all are
censored together. -/
theorem C2_crossing_search_correct (r : Result) (ind : Indicator) (targets : List Rat)
    (hmem : ind.name ∈ r.indicators)
    (hfev : "__fevals" ∈ r.data.columns)
    (hne : r.data.rows ≠ [])
    (hsorted : (r.data.getCol "__fevals").Sorted (· ≤ ·))
    (hmono : targets.Pairwise (fun a b =>
      if ind.larger_is_better = true then a ≤ b else b ≤ a)) :
    ∃ (r' : Result) (fmax : Rat),
      r.at_indicator (.ind ind) targets = .ok r' ∧
      (r.data.getCol "__fevals").max? = some fmax ∧
      r'.data.rows.length = targets.length ∧
      (∀ p, p < targets.length →
        r'.data.rows.getD p []
          = match specSmallestCrossingFeval ind.larger_is_better
              (r.data.getCol "__fevals") (r.data.getCol ind.name) (targets.getD p 0) with
            | some c => [c, targets.getD p 0, 1, c / (r.problem.number_of_variables : Rat)]
            | none => [fmax, targets.getD p 0, 0,
                fmax / (r.problem.number_of_variables : Rat)]) ∧
      (∀ p q, p ≤ q → q < targets.length →
        specSmallestCrossingFeval ind.larger_is_better (r.data.getCol "__fevals")
          (r.data.getCol ind.name) (targets.getD p 0) = none →
        specSmallestCrossingFeval ind.larger_is_better (r.data.getCol "__fevals")
          (r.data.getCol ind.name) (targets.getD q 0) = none) := by
  have hindcol : ind.name ∈ r.data.columns := by
    unfold Result.indicators at hmem
    exact List.mem_of_mem_filter hmem
  obtain ⟨ii, hii⟩ : ∃ ii, r.data.colIdx ind.name = some ii := by
    apply Option.isSome_iff_exists.mp
    unfold DataFrame.colIdx
    rw [List.findIdx?_isSome, List.any_eq_true]
    exact ⟨ind.name, hindcol, by simp⟩
  obtain ⟨fi, hfi⟩ : ∃ fi, r.data.colIdx "__fevals" = some fi := by
    apply Option.isSome_iff_exists.mp
    unfold DataFrame.colIdx
    rw [List.findIdx?_isSome, List.any_eq_true]
    exact ⟨"__fevals", hfev, by simp⟩
  have hfvals : r.data.getCol "__fevals" = r.data.rows.map (fun row => row.getD fi 0) := by
    unfold DataFrame.getCol; rw [hfi]
  have hraw : r.data.getCol ind.name = r.data.rows.map (fun row => row.getD ii 0) := by
    unfold DataFrame.getCol; rw [hii]
  set fvals := r.data.getCol "__fevals" with hfv
  set raw := r.data.getCol ind.name with hrw
  set runbest := if ind.larger_is_better then cumMax raw else cumMin raw with hrb
  have hlenf : fvals.length = r.data.rows.length := by rw [hfvals]; simp
  have hlenr : raw.length = r.data.rows.length := by rw [hraw]; simp
  have hlenrb : runbest.length = r.data.rows.length := by
    rw [hrb]
    cases ind.larger_is_better
    · simpa [cumMin_length] using hlenr
    · simpa [cumMax_length] using hlenr
  have hlen : fvals.length = runbest.length := by omega
  cases hmax : fvals.max? with
  | none =>
    rw [List.max?_eq_none_iff, hfvals, List.map_eq_nil_iff] at hmax
    exact absurd hmax hne
  | some fmax =>
  set out := atIndicatorLoop ind.larger_is_better runbest fvals fmax 0 targets with hout
  have hval : r.at_indicator (.ind ind) targets
      = .ok (Result.init r.algorithm r.problem (atIndicatorFrame ind targets r fmax)
          "fevals") := by
    unfold Result.at_indicator
    rw [show resolve (.ind ind) = .ok ind from rfl, except_bind_ok]
    simp only [hmem, if_true, ← hfv, ← hrw, hmax]
    rfl
  have hlenout : out.length = targets.length := by
    rw [hout]; exact atIndicatorLoop_length _ _ _ _ _ _
  have hchar : ∀ p, p < targets.length →
      out.getD p (0, 0)
        = match runbest.findIdx?
            (fun v => satisfies ind.larger_is_better v (targets.getD p 0)) with
          | some j => (fvals.getD j 0, 1)
          | none => (fmax, 0) := by
    intro p hp
    rw [hout]
    exact atIndicatorLoop_char targets 0 hmono
      (fun t _ m hm => absurd hm (Nat.not_lt_zero m)) p hp
  have hspec : ∀ t : Rat, specSmallestCrossingFeval ind.larger_is_better fvals raw t
      = (runbest.findIdx? (fun v => satisfies ind.larger_is_better v t)).map
          (fun j => fvals.getD j 0) := by
    intro t
    rw [hrb]
    exact specSmallest_eq t hsorted (by rw [← hrb]; exact hlen)
  have hframe_rows : (atIndicatorFrame ind targets r fmax).rows
      = (targets.zip out).map (fun p => [p.2.1, p.1, p.2.2]) := by
    rw [hout]
    unfold atIndicatorFrame
    rw [← hrw, ← hrb, ← hfv]
  have hlenzip : (targets.zip out).length = targets.length := by
    rw [List.length_zip]; omega
  have hrow : ∀ p, p < targets.length →
      ((targets.zip out).map (fun q => [q.2.1, q.1, q.2.2])).getD p []
        = [(out.getD p (0, 0)).1, targets.getD p 0, (out.getD p (0, 0)).2] := by
    intro p hp
    have hp2 : p < (targets.zip out).length := by omega
    rw [List.getD_eq_getElem _ _ (by simpa using hp2), List.getElem_map, List.getElem_zip]
    rw [List.getD_eq_getElem _ _ hp, List.getD_eq_getElem _ _ (by omega : p < out.length)]
  have hout_fst_le : ∀ a b, a < targets.length → b < targets.length → a ≤ b →
      (out.getD a (0, 0)).1 ≤ (out.getD b (0, 0)).1 := by
    intro a b ha hb hab
    rcases Nat.eq_or_lt_of_le hab with rfl | hab
    · exact le_refl _
    have hord : if ind.larger_is_better = true
        then targets.getD a 0 ≤ targets.getD b 0
        else targets.getD b 0 ≤ targets.getD a 0 := by
      have := List.pairwise_iff_getElem.mp hmono a b ha hb hab
      rwa [List.getD_eq_getElem _ _ ha, List.getD_eq_getElem _ _ hb]
    rw [hchar a ha, hchar b hb]
    cases hfa : runbest.findIdx?
        (fun v => satisfies ind.larger_is_better v (targets.getD a 0)) with
    | some ja =>
      cases hfb : runbest.findIdx?
          (fun v => satisfies ind.larger_is_better v (targets.getD b 0)) with
      | some jb =>
        simp only []
        obtain ⟨ja2, hja2, hle⟩ := findIdx?_first_le hord hfb
        rw [hfa] at hja2
        injection hja2 with e
        subst e
        have hjb : jb < runbest.length :=
          (List.findIdx?_eq_some_iff_getElem.mp hfb).1
        rcases Nat.eq_or_lt_of_le hle with rfl | hlt
        · exact le_refl _
        · have := List.pairwise_iff_getElem.mp hsorted ja jb
            (by omega) (by omega) hlt
          rwa [← List.getD_eq_getElem _ (0 : Rat) (by omega),
            ← List.getD_eq_getElem _ (0 : Rat) (by omega)] at this
      | none =>
        simp only []
        have hja : ja < runbest.length :=
          (List.findIdx?_eq_some_iff_getElem.mp hfa).1
        apply mem_le_max? hmax
        rw [List.getD_eq_getElem _ _ (by omega : ja < fvals.length)]
        exact List.getElem_mem _
    | none =>
      cases hfb : runbest.findIdx?
          (fun v => satisfies ind.larger_is_better v (targets.getD b 0)) with
      | some jb =>
        obtain ⟨ja2, hja2, -⟩ := findIdx?_first_le hord hfb
        rw [hfa] at hja2
        cases hja2
      | none => exact le_refl _
  have hsortedrows : ((targets.zip out).map (fun q => [q.2.1, q.1, q.2.2])).Pairwise
      (fun u v => u.getD 0 0 ≤ v.getD 0 0) := by
    rw [List.pairwise_iff_getElem]
    intro a b ha hb hab
    rw [List.getElem_map, List.getElem_map, List.getElem_zip, List.getElem_zip]
    simp only [List.getD_cons_zero]
    have ha' : a < targets.length := by
      rw [List.length_map] at ha; omega
    have hb' : b < targets.length := by
      rw [List.length_map] at hb; omega
    have := hout_fst_le a b ha' hb' (Nat.le_of_lt hab)
    rwa [List.getD_eq_getElem _ _ (by omega : a < out.length),
      List.getD_eq_getElem _ _ (by omega : b < out.length)] at this
  have hc0 : (renameFevals (atIndicatorFrame ind targets r fmax) "fevals").colIdx "__fevals"
      = some 0 := by
    unfold renameFevals atIndicatorFrame DataFrame.rename DataFrame.colIdx
    simp
  have hrrows : (Result.init r.algorithm r.problem (atIndicatorFrame ind targets r fmax)
      "fevals").data.rows
      = ((targets.zip out).map (fun q => [q.2.1, q.1, q.2.2])).map
          (fun row => row ++ [row.getD 0 0 / (r.problem.number_of_variables : Rat)]) := by
    show ((renameFevals (atIndicatorFrame ind targets r fmax) "fevals").sortBy "__fevals"
        |>.withFevalsDim r.problem.number_of_variables).rows = _
    rw [withFevalsDim_rows _ (by rw [sortBy_colIdx]; exact hc0)]
    rw [sortBy_rows hc0]
    rw [renameFevals_rows, hframe_rows]
    rw [List.Sorted.insertionSort_eq hsortedrows]
  refine ⟨_, fmax, hval, rfl, ?_, ?_, ?_⟩
  · rw [hrrows]
    simp [hlenzip]
  · intro p hp
    rw [hrrows]
    have hp3 : p < ((targets.zip out).map (fun q => [q.2.1, q.1, q.2.2])).length := by
      rw [List.length_map]; omega
    rw [List.getD_eq_getElem _ _ (by simpa using hp3), List.getElem_map]
    rw [← List.getD_eq_getElem _ ([] : List Rat) hp3]
    rw [hrow p hp, hspec, hchar p hp]
    cases runbest.findIdx?
        (fun v => satisfies ind.larger_is_better v (targets.getD p 0)) with
    | some j => simp
    | none => simp
  · intro p q hpq hq hnp
    rw [hspec] at hnp ⊢
    cases hfb : runbest.findIdx?
        (fun v => satisfies ind.larger_is_better v (targets.getD q 0)) with
    | none => rfl
    | some jq =>
      have hord : if ind.larger_is_better = true
          then targets.getD p 0 ≤ targets.getD q 0
          else targets.getD q 0 ≤ targets.getD p 0 := by
        rcases Nat.eq_or_lt_of_le hpq with rfl | hlt
        · split <;> exact le_refl _
        · have := List.pairwise_iff_getElem.mp hmono p q (by omega) hq hlt
          rwa [List.getD_eq_getElem _ _ (by omega : p < targets.length),
            List.getD_eq_getElem _ _ hq]
      obtain ⟨jp, hjp, -⟩ := findIdx?_first_le hord hfb
      rw [hjp] at hnp
      cases hnp

/-- Witness for the amended C2 at the sample trace with the monotone target
sequence `[15, 25, 35, 120]`. -/
theorem C2_crossing_search_correct_witness :
    ∃ (r' : Result) (fmax : Rat),
      sampleResult.at_indicator (.ind ⟨"hypervolume", "Hypervolume", true⟩)
        [15, 25, 35, 120] = .ok r' ∧
      (sampleResult.data.getCol "__fevals").max? = some fmax ∧
      r'.data.rows.length = ([15, 25, 35, 120] : List Rat).length ∧
      (∀ p, p < ([15, 25, 35, 120] : List Rat).length →
        r'.data.rows.getD p []
          = match specSmallestCrossingFeval true
              (sampleResult.data.getCol "__fevals")
              (sampleResult.data.getCol "hypervolume")
              (([15, 25, 35, 120] : List Rat).getD p 0) with
            | some c => [c, ([15, 25, 35, 120] : List Rat).getD p 0, 1,
                c / (sampleProblem.number_of_variables : Rat)]
            | none => [fmax, ([15, 25, 35, 120] : List Rat).getD p 0, 0,
                fmax / (sampleProblem.number_of_variables : Rat)]) ∧
      (∀ p q, p ≤ q → q < ([15, 25, 35, 120] : List Rat).length →
        specSmallestCrossingFeval true (sampleResult.data.getCol "__fevals")
          (sampleResult.data.getCol "hypervolume")
          (([15, 25, 35, 120] : List Rat).getD p 0) = none →
        specSmallestCrossingFeval true (sampleResult.data.getCol "__fevals")
          (sampleResult.data.getCol "hypervolume")
          (([15, 25, 35, 120] : List Rat).getD q 0) = none) :=
  C2_crossing_search_correct sampleResult ⟨"hypervolume", "Hypervolume", true⟩
    [15, 25, 35, 120] (by decide) (by decide) (by decide) (by decide) (by decide)

/-- `Except.error` on the left of a bind short-circuits. -/
theorem except_bind_error {α β ε : Type} (e : ε) (f : α → Except ε β) :
    (Except.error e >>= f : Except ε β) = .error e := rfl

/-- `linspace` always produces the requested number of points. -/
theorem linspace_length (low high : Rat) (n : Nat) : (linspace low high n).length = n := by
  unfold linspace
  split
  · simp [*]
  · simp

/-- Pointwise value of a non-degenerate `linspace`. -/
theorem linspace_getD (low high : Rat) (n j : Nat) (hn : ¬ n = 1) (hj : j < n) :
    (linspace low high n).getD j 0
      = low + (high - low) * (j : Rat) / ((n : Rat) - 1) := by
  unfold linspace
  rw [if_neg hn]
  have hj2 : j < ((List.range n).map
      (fun i : Nat => low + (high - low) * (i : Rat) / ((n : Rat) - 1))).length := by
    simpa using hj
  rw [List.getD_eq_getElem _ _ hj2, List.getElem_map, List.getElem_range]

/-- First point of a non-degenerate `linspace`. -/
theorem linspace_head (low high : Rat) (n : Nat) (hn : 2 ≤ n) :
    (linspace low high n).getD 0 0 = low := by
  rw [linspace_getD low high n 0 (by omega) (by omega)]
  simp

/-- Last point of a non-degenerate `linspace`. -/
theorem linspace_last (low high : Rat) (n : Nat) (hn : 2 ≤ n) :
    (linspace low high n).getD (n - 1) 0 = high := by
  rw [linspace_getD low high n (n - 1) (by omega) (by omega)]
  have hcast : ((n - 1 : Nat) : Rat) = (n : Rat) - 1 := by
    have h1 : 1 ≤ n := by omega
    push_cast [h1]
    ring
  rw [hcast]
  have hne : ((n : Rat) - 1) ≠ 0 := by
    have : (2 : Rat) ≤ (n : Rat) := by exact_mod_cast hn
    linarith
  rw [mul_div_assoc, div_self hne, mul_one]
  ring

/-- A non-degenerate `linspace` is evenly spaced with step
`(high - low) / (n - 1)`. -/
theorem linspace_spacing (low high : Rat) (n : Nat) (hn : 2 ≤ n) :
    EvenlySpaced (linspace low high n) ((high - low) / ((n : Rat) - 1)) := by
  intro j hj
  rw [linspace_length] at hj
  rw [linspace_getD low high n (j + 1) (by omega) (by omega)]
  rw [linspace_getD low high n j (by omega) (by omega)]
  have hne : ((n : Rat) - 1) ≠ 0 := by
    have : (2 : Rat) ≤ (n : Rat) := by exact_mod_cast hn
    linarith
  push_cast
  field_simp
  ring

/-- Evaluation of one step of the `linear_targets` loop when the pooled
column and its extrema are available. -/
theorem linearTargetsLoop_cons {ind : Indicator} {n : Nat} (desc : ProblemDescription)
    (prs : ResultSet) (gs : List (ProblemDescription × ResultSet))
    {df : DataFrame} {vals : List Rat} {low high : Rat}
    (hdf : plConcat (prs.results.map (fun r => r.data)) = .ok df)
    (hcol : df.getColE ind.name = .ok vals)
    (hmin : vals.min? = some low) (hmax : vals.max? = some high) :
    linearTargetsLoop ind n ((desc, prs) :: gs)
      = (linearTargetsLoop ind n gs).map (fun tail =>
          (desc,
            if low = high then linspace low high 1
            else if ind.larger_is_better then linspace low high n
            else linspace high low n) :: tail) := by
  cases hrec : linearTargetsLoop ind n gs with
  | error e =>
    unfold linearTargetsLoop
    rw [hdf, except_bind_ok, hcol, except_bind_ok, hmin, hmax, hrec]
    rfl
  | ok tail =>
    unfold linearTargetsLoop
    rw [hdf, except_bind_ok, hcol, except_bind_ok, hmin, hmax, hrec]
    rfl

/-- One step of the `linear_targets` loop fails when pooling fails. -/
theorem linearTargetsLoop_cons_err1 {ind : Indicator} {n : Nat} (desc : ProblemDescription)
    (prs : ResultSet) (gs : List (ProblemDescription × ResultSet)) {e : CocoErr}
    (hdf : plConcat (prs.results.map (fun r => r.data)) = .error e) :
    linearTargetsLoop ind n ((desc, prs) :: gs) = .error e := by
  unfold linearTargetsLoop
  rw [hdf]
  rfl

/-- One step of the `linear_targets` loop fails when the indicator column is
missing from the pooled frame. -/
theorem linearTargetsLoop_cons_err2 {ind : Indicator} {n : Nat} (desc : ProblemDescription)
    (prs : ResultSet) (gs : List (ProblemDescription × ResultSet))
    {df : DataFrame} {e : CocoErr}
    (hdf : plConcat (prs.results.map (fun r => r.data)) = .ok df)
    (hcol : df.getColE ind.name = .error e) :
    linearTargetsLoop ind n ((desc, prs) :: gs) = .error e := by
  unfold linearTargetsLoop
  rw [hdf, except_bind_ok, hcol]
  rfl

/-- One step of the `linear_targets` loop fails on an empty pooled column
(`min` of an empty polars series is `None`). -/
theorem linearTargetsLoop_cons_err3 {ind : Indicator} {n : Nat} (desc : ProblemDescription)
    (prs : ResultSet) (gs : List (ProblemDescription × ResultSet))
    {df : DataFrame} {vals : List Rat}
    (hdf : plConcat (prs.results.map (fun r => r.data)) = .ok df)
    (hcol : df.getColE ind.name = .ok vals)
    (hmin : vals.min? = none) :
    linearTargetsLoop ind n ((desc, prs) :: gs) = .error .typeError := by
  unfold linearTargetsLoop
  rw [hdf, except_bind_ok, hcol, except_bind_ok, hmin]

/-- Looking up a group's problem in the dictionary built by the
`linear_targets` loop returns exactly the targets computed from that group's
pooled indicator values. -/
theorem linearTargetsLoop_lookup {ind : Indicator} {n : Nat} :
    ∀ {groups : List (ProblemDescription × ResultSet)}
      {tdict : List (ProblemDescription × List Rat)},
    linearTargetsLoop ind n groups = .ok tdict →
    (groups.map (fun g => g.1)).Nodup →
    ∀ {desc : ProblemDescription} {prs : ResultSet}, (desc, prs) ∈ groups →
    ∀ {df : DataFrame} {vals : List Rat} {low high : Rat},
      plConcat (prs.results.map (fun r => r.data)) = .ok df →
      df.getColE ind.name = .ok vals →
      vals.min? = some low → vals.max? = some high →
      dictGet tdict desc = .ok
        (if low = high then linspace low high 1
         else if ind.larger_is_better then linspace low high n
         else linspace high low n) := by
  intro groups
  induction groups with
  | nil => intro tdict _ _ _ _ hmem; simp at hmem
  | cons g gs ih =>
    intro tdict hok hnodup desc prs hmem df vals low high hdf hcol hmin hmax
    obtain ⟨gd, gp⟩ := g
    rcases List.mem_cons.mp hmem with heq | hmem2
    · injection heq with heq1 heq2
      subst heq1; subst heq2
      rw [linearTargetsLoop_cons desc prs gs hdf hcol hmin hmax] at hok
      cases hrec : linearTargetsLoop ind n gs with
      | error e => rw [hrec] at hok; cases hok
      | ok tail =>
        rw [hrec] at hok
        injection hok with hok
        subst hok
        unfold dictGet
        simp
    · rw [List.map_cons] at hnodup
      have h1 := (List.nodup_cons.mp hnodup).1
      have hdm : desc ∈ gs.map (fun g => g.1) :=
        List.mem_map_of_mem (fun g => g.1) hmem2
      have hne : gd ≠ desc := fun hc => h1 (hc ▸ hdm)
      cases hdf0 : plConcat (gp.results.map (fun r => r.data)) with
      | error e => rw [linearTargetsLoop_cons_err1 gd gp gs hdf0] at hok; cases hok
      | ok df0 =>
      cases hcol0 : df0.getColE ind.name with
      | error e => rw [linearTargetsLoop_cons_err2 gd gp gs hdf0 hcol0] at hok; cases hok
      | ok vals0 =>
      cases hmin0 : vals0.min? with
      | none => rw [linearTargetsLoop_cons_err3 gd gp gs hdf0 hcol0 hmin0] at hok; cases hok
      | some l0 =>
      cases hmax0 : vals0.max? with
      | none =>
        have : linearTargetsLoop ind n ((gd, gp) :: gs) = .error .typeError := by
          unfold linearTargetsLoop
          rw [hdf0, except_bind_ok, hcol0, except_bind_ok, hmin0, hmax0]
        rw [this] at hok
        cases hok
      | some h0 =>
      rw [linearTargetsLoop_cons gd gp gs hdf0 hcol0 hmin0 hmax0] at hok
      cases hrec : linearTargetsLoop ind n gs with
      | error e => rw [hrec] at hok; cases hok
      | ok tail =>
        rw [hrec] at hok
        injection hok with hok
        subst hok
        unfold dictGet
        rw [List.find?_cons_of_neg _ (by simp only [beq_iff_eq]; exact hne)]
        exact ih hrec (List.nodup_cons.mp hnodup).2 hmem2 hdf hcol hmin hmax

/-- C7: `linear_targets` on a problem whose pooled indicator values are
constant yields exactly one target equal to that constant; otherwise it
yields `number_of_targets` evenly spaced values running low-to-high for a
maximize indicator and high-to-low for a minimize indicator. -/
theorem C7_linear_targets_shape (results : ResultSet) (ind : Indicator) (n : Nat)
    (tdict : List (ProblemDescription × List Rat))
    (groups : List (ProblemDescription × ResultSet))
    (desc : ProblemDescription) (prs : ResultSet)
    (df : DataFrame) (vals : List Rat) (low high : Rat)
    (hby : results.by_problem = .ok groups)
    (hnodup : (groups.map (fun g => g.1)).Nodup)
    (hmem : (desc, prs) ∈ groups)
    (hdf : plConcat (prs.results.map (fun r => r.data)) = .ok df)
    (hcol : df.getColE ind.name = .ok vals)
    (hmin : vals.min? = some low) (hmax : vals.max? = some high)
    (hok : linear_targets results (.ind ind) n = .ok tdict)
    (hn : 2 ≤ n) :
    ∃ ts, dictGet tdict desc = .ok ts ∧
      (low = high → ts = [low]) ∧
      (low ≠ high → ts.length = n ∧
        (ind.larger_is_better = true →
          ts.getD 0 0 = low ∧ ts.getD (n - 1) 0 = high ∧
          EvenlySpaced ts ((high - low) / ((n : Rat) - 1))) ∧
        (ind.larger_is_better = false →
          ts.getD 0 0 = high ∧ ts.getD (n - 1) 0 = low ∧
          EvenlySpaced ts ((low - high) / ((n : Rat) - 1)))) := by
  unfold linear_targets at hok
  rw [show resolve (.ind ind) = .ok ind from rfl, except_bind_ok, hby, except_bind_ok] at hok
  refine ⟨_, linearTargetsLoop_lookup hok hnodup hmem hdf hcol hmin hmax, ?_, ?_⟩
  · intro heq
    rw [if_pos heq]
    rfl
  · intro hne
    rw [if_neg hne]
    refine ⟨by split <;> apply linspace_length, ?_, ?_⟩
    · intro hl
      rw [if_pos hl]
      exact ⟨linspace_head low high n hn, linspace_last low high n hn,
        linspace_spacing low high n hn⟩
    · intro hl
      rw [if_neg (by simp [hl])]
      exact ⟨linspace_head high low n hn, linspace_last high low n hn,
        linspace_spacing high low n hn⟩

/-- Witness for C7 on two algorithms whose pooled hypervolume values are 1
and 3, with three targets. -/
theorem C7_linear_targets_shape_witness :
    ∃ ts, dictGet [(sampleProblem, linspace 1 3 3)] sampleProblem = .ok ts ∧
      ((1 : Rat) = 3 → ts = [1]) ∧
      ((1 : Rat) ≠ 3 → ts.length = 3 ∧
        (true = true →
          ts.getD 0 0 = 1 ∧ ts.getD (3 - 1) 0 = 3 ∧
          EvenlySpaced ts (((3 : Rat) - 1) / ((3 : Rat) - 1))) ∧
        (true = false →
          ts.getD 0 0 = 3 ∧ ts.getD (3 - 1) 0 = 1 ∧
          EvenlySpaced ts (((1 : Rat) - 3) / ((3 : Rat) - 1)))) :=
  C7_linear_targets_shape c7rs ⟨"hypervolume", "Hypervolume", true⟩ 3
    [(sampleProblem, linspace 1 3 3)] [(sampleProblem, c7rs)] sampleProblem c7rs
    c7df [1, 3] 1 3 (by rfl) (by decide) (by simp) (by rfl) (by rfl)
    (by rfl) (by rfl) (by rfl) (by omega)

/-- Membership after a `set.add`. -/
theorem mem_insertSet {α : Type} [DecidableEq α] {l : List α} {x y : α} :
    x ∈ insertSet l y ↔ x ∈ l ∨ x = y := by
  unfold insertSet
  split
  · constructor
    · exact fun h => Or.inl h
    · rintro (h | rfl)
      · exact h
      · assumption
  · simp

/-- `set.add` keeps the representation duplicate-free. -/
theorem nodup_insertSet {α : Type} [DecidableEq α] {l : List α} {y : α}
    (h : l.Nodup) : (insertSet l y).Nodup := by
  unfold insertSet
  split
  · exact h
  · simpa [List.nodup_append] using ⟨h, by assumption⟩

/-- Membership in a fold of `set.add`s. -/
theorem mem_foldl_insertSet {α : Type} [DecidableEq α] :
    ∀ (l : List α) (acc : List α) (x : α),
      x ∈ l.foldl insertSet acc ↔ x ∈ acc ∨ x ∈ l := by
  intro l
  induction l with
  | nil => simp
  | cons v vs ih =>
    intro acc x
    rw [List.foldl_cons, ih]
    rw [mem_insertSet]
    simp only [List.mem_cons]
    tauto

/-- A fold of `set.add`s from a duplicate-free accumulator stays
duplicate-free. -/
theorem nodup_foldl_insertSet {α : Type} [DecidableEq α] :
    ∀ (l : List α) (acc : List α), acc.Nodup → (l.foldl insertSet acc).Nodup := by
  intro l
  induction l with
  | nil => exact fun acc h => h
  | cons v vs ih =>
    intro acc h
    exact ih _ (nodup_insertSet h)

/-- Membership in the insertion-ordered deduplication. -/
theorem mem_dedupList {α : Type} [DecidableEq α] {l : List α} {x : α} :
    x ∈ dedupList l ↔ x ∈ l := by
  unfold dedupList
  rw [mem_foldl_insertSet]
  simp

/-- The insertion-ordered deduplication is duplicate-free. -/
theorem nodup_dedupList {α : Type} [DecidableEq α] (l : List α) :
    (dedupList l).Nodup := nodup_foldl_insertSet l [] List.nodup_nil

/-- The mutation step appends the result at the end of the stored list. -/
theorem appendUnchecked_results (rs : ResultSet) (r : Result) :
    (rs.appendUnchecked r).results = rs.results ++ [r] := rfl

/-- Stored results of a fold of unchecked appends. -/
theorem foldl_appendUnchecked_results :
    ∀ (l : List Result) (rs : ResultSet),
      (l.foldl ResultSet.appendUnchecked rs).results = rs.results ++ l := by
  intro l
  induction l with
  | nil => intro rs; simp
  | cons r rest ih =>
    intro rs
    rw [List.foldl_cons, ih, appendUnchecked_results]
    simp

/-- `append` succeeds whenever the newcomer's indicator set matches the
first member's (or the set is empty). -/
theorem append_ok {rs : ResultSet} {r : Result}
    (h : ∀ r0 ∈ rs.results, strSetEq r0.indicators r.indicators = true) :
    rs.append r = .ok (rs.appendUnchecked r) := by
  unfold ResultSet.append
  cases h0 : rs.results.head? with
  | none => rfl
  | some r0 =>
    have h1 := h r0 (List.mem_of_mem_head? h0)
    simp [h1]

/-- Appending a list of pairwise-compatible results succeeds and reduces to
the fold of unchecked appends. -/
theorem appendList_ok :
    ∀ (l : List Result) (rs : ResultSet),
    (∀ x ∈ rs.results, ∀ y ∈ l, strSetEq x.indicators y.indicators = true) →
    (∀ x ∈ l, ∀ y ∈ l, strSetEq x.indicators y.indicators = true) →
    rs.appendList l = .ok (l.foldl ResultSet.appendUnchecked rs) := by
  intro l
  induction l with
  | nil => intro rs _ _; rfl
  | cons r rest ih =>
    intro rs hacc hl
    rw [ResultSet.appendList]
    rw [append_ok (fun r0 h0 => hacc r0 h0 r (by simp)), except_bind_ok]
    rw [ih (rs.appendUnchecked r) ?hacc ?hl]
    case hacc =>
      intro x hx y hy
      rw [appendUnchecked_results] at hx
      rcases List.mem_append.mp hx with hx | hx
      · exact hacc x hx y (by simp [hy])
      · rw [List.mem_singleton.mp hx]
        exact hl r (by simp) y (by simp [hy])
    case hl =>
      intro x hx y hy
      exact hl x (by simp [hx]) y (by simp [hy])
    rfl

/-- Evaluation of the `by_algorithm` grouping loop on a result list with
pairwise-matching indicator sets: each key yields the filtered sublist,
empty groups are dropped. -/
theorem byAlgorithmAux_ok (results : List Result)
    (hind : ∀ x ∈ results, ∀ y ∈ results, strSetEq x.indicators y.indicators = true) :
    ∀ (keys : List String),
    byAlgorithmAux results keys = .ok (keys.filterMap (fun a =>
      if 0 < (results.filter (fun r => r.algorithm == a)).length then
        some (a, (results.filter (fun r => r.algorithm == a)).foldl
          ResultSet.appendUnchecked ResultSet.empty)
      else none)) := by
  intro keys
  induction keys with
  | nil => rfl
  | cons a rest ih =>
    rw [byAlgorithmAux]
    rw [appendList_ok (results.filter (fun r => r.algorithm == a)) ResultSet.empty
      (by intro x hx; cases hx)
      (by
        intro x hx y hy
        exact hind x (List.mem_of_mem_filter hx) y (List.mem_of_mem_filter hy))]
    rw [except_bind_ok, ih, except_bind_ok]
    rw [List.filterMap_cons]
    simp only [foldl_appendUnchecked_results, show ResultSet.empty.results = [] from rfl,
      List.nil_append]
    by_cases h : 0 < (results.filter (fun r => r.algorithm == a)).length
    · rw [if_pos h, if_pos h]
    · rw [if_neg h, if_neg h]

/-- Keys of a filter-map whose function preserves its argument as the first
component form a subsequence of the input keys. -/
theorem map_fst_filterMap_sublist {α β : Type} (f : α → Option (α × β))
    (hf : ∀ a b, f a = some b → b.1 = a) :
    ∀ l : List α, ((l.filterMap f).map (fun g => g.1)).Sublist l := by
  intro l
  induction l with
  | nil => simp
  | cons a as ih =>
    rw [List.filterMap_cons]
    cases hfa : f a with
    | none => exact ih.cons a
    | some b =>
      rw [List.map_cons, hf a b hfa]
      exact ih.cons₂ a

/-- Bucketing a list by a covering, duplicate-free key list and flattening
recovers the list up to permutation. -/
theorem filter_key_flatten_perm {α κ : Type} [DecidableEq κ] (key : α → κ) :
    ∀ (ks : List κ) (l : List α), ks.Nodup → (∀ x ∈ l, key x ∈ ks) →
      (ks.map (fun k => l.filter (fun x => key x == k))).flatten.Perm l := by
  intro ks
  induction ks with
  | nil =>
    intro l _ hcov
    cases l with
    | nil => simp
    | cons x xs => exact absurd (hcov x (by simp)) (by simp)
  | cons k ks ih =>
    intro l hnodup hcov
    rw [List.map_cons, List.flatten_cons]
    have hstep : ∀ k2 ∈ ks, l.filter (fun x => key x == k2)
        = (l.filter (fun x => !(key x == k))).filter (fun x => key x == k2) := by
      intro k2 hk2
      rw [List.filter_filter]
      apply List.filter_congr
      intro x _
      by_cases hx : key x = k2
      · have hkk : ¬ key x = k := by
          intro hc
          have h3 : k2 = k := by rw [← hx, hc]
          exact (List.nodup_cons.mp hnodup).1 (h3 ▸ hk2)
        have hne2 : ¬ k2 = k := fun hc => hkk (hx.trans hc)
        simp [hx, hne2]
      · simp [hx]
    have hmapeq : ks.map (fun k2 => l.filter (fun x => key x == k2))
        = ks.map (fun k2 => (l.filter (fun x => !(key x == k))).filter
            (fun x => key x == k2)) :=
      List.map_congr_left hstep
    rw [hmapeq]
    have hcov2 : ∀ x ∈ l.filter (fun x => !(key x == k)), key x ∈ ks := by
      intro x hx
      obtain ⟨hxl, hxk⟩ := List.mem_filter.mp hx
      rcases List.mem_cons.mp (hcov x hxl) with heq | hin
      · rw [heq] at hxk; simp at hxk
      · exact hin
    have hperm := ih (l.filter (fun x => !(key x == k)))
      (List.nodup_cons.mp hnodup).2 hcov2
    exact List.Perm.trans (List.Perm.append_left _ hperm) (List.filter_append_perm _ l)

/-- Dropping the empty buckets does not change the flattened content. -/
theorem flatten_groups_eq (results : List Result) :
    ∀ keys : List String,
      ((keys.filterMap (fun a =>
          if 0 < (results.filter (fun r => r.algorithm == a)).length then
            some (a, (results.filter (fun r => r.algorithm == a)).foldl
              ResultSet.appendUnchecked ResultSet.empty)
          else none)).map (fun g => g.2.results)).flatten
        = (keys.map (fun a => results.filter (fun r => r.algorithm == a))).flatten := by
  intro keys
  induction keys with
  | nil => rfl
  | cons a rest ih =>
    rw [List.filterMap_cons, List.map_cons, List.flatten_cons]
    by_cases h : 0 < (results.filter (fun r => r.algorithm == a)).length
    · rw [if_pos h, List.map_cons, List.flatten_cons, ih]
      congr 1
      rw [foldl_appendUnchecked_results]
      rfl
    · rw [if_neg h, ih]
      have h2 : results.filter (fun r => r.algorithm == a) = [] :=
        List.length_eq_zero.mp (by omega)
      rw [h2, List.nil_append]

/-- C8: `by_algorithm` partitions the set — on a well-formed `ResultSet` it
succeeds, the groups' stored results flatten to a permutation of the
original results, each group is exactly the insertion-ordered sublist for
its key, no result occurs in two groups, keys come out strictly ascending,
and no group is empty. -/
theorem C8_by_algorithm_partitions (rs : ResultSet) (hw : rs.Mirrors) :
    ∃ groups, rs.by_algorithm = .ok groups ∧
      (groups.map (fun g => g.2.results)).flatten.Perm rs.results ∧
      (∀ g ∈ groups, g.2.results = rs.results.filter (fun r => r.algorithm == g.1)) ∧
      List.Pairwise (fun g g2 => ∀ x ∈ g.2.results, x ∉ g2.2.results) groups ∧
      ((groups.map (fun g => g.1)).Pairwise (· < ·)) ∧
      ∀ g ∈ groups, g.2.results ≠ [] := by
  obtain ⟨halg, -, -, -, hind⟩ := hw
  have hba := byAlgorithmAux_ok rs.results hind (sortedStrings rs.algorithms)
  have hkeysnodup : (sortedStrings rs.algorithms).Nodup := by
    have hperm : (sortedStrings rs.algorithms).Perm rs.algorithms :=
      List.perm_insertionSort _ _
    rw [hperm.nodup_iff, halg]
    exact nodup_dedupList _
  have hkeysmem : ∀ a : String, a ∈ sortedStrings rs.algorithms ↔ a ∈ rs.algorithms :=
    fun a => (List.perm_insertionSort _ _).mem_iff
  have hcov : ∀ r ∈ rs.results, r.algorithm ∈ sortedStrings rs.algorithms := by
    intro r hr
    rw [hkeysmem, halg, mem_dedupList]
    exact List.mem_map_of_mem _ hr
  have hkeyssorted : (sortedStrings rs.algorithms).Pairwise (fun a b => a ≤ b) :=
    List.sorted_insertionSort _ _
  have hkeyslt : (sortedStrings rs.algorithms).Pairwise (fun a b => a < b) :=
    (hkeyssorted.and hkeysnodup).imp (fun h => lt_of_le_of_ne h.1 h.2)
  have hchar : ∀ g ∈ (sortedStrings rs.algorithms).filterMap (fun a =>
      if 0 < (rs.results.filter (fun r => r.algorithm == a)).length then
        some (a, (rs.results.filter (fun r => r.algorithm == a)).foldl
          ResultSet.appendUnchecked ResultSet.empty)
      else none),
      g.2.results = rs.results.filter (fun r => r.algorithm == g.1) ∧
      0 < (rs.results.filter (fun r => r.algorithm == g.1)).length := by
    intro g hg
    obtain ⟨a, _, hfa⟩ := List.mem_filterMap.mp hg
    by_cases h : 0 < (rs.results.filter (fun r => r.algorithm == a)).length
    · rw [if_pos h] at hfa
      injection hfa with hfa
      subst hfa
      refine ⟨?_, h⟩
      rw [foldl_appendUnchecked_results]
      rfl
    · rw [if_neg h] at hfa
      cases hfa
  have hf : ∀ (a : String) (b : String × ResultSet),
      (if 0 < (rs.results.filter (fun r => r.algorithm == a)).length then
        some (a, (rs.results.filter (fun r => r.algorithm == a)).foldl
          ResultSet.appendUnchecked ResultSet.empty)
      else none) = some b → b.1 = a := by
    intro a b hab
    by_cases h : 0 < (rs.results.filter (fun r => r.algorithm == a)).length
    · rw [if_pos h] at hab
      injection hab with hab
      rw [← hab]
    · rw [if_neg h] at hab
      cases hab
  have hsub := map_fst_filterMap_sublist _ hf (sortedStrings rs.algorithms)
  have hGlt := hkeyslt.sublist hsub
  refine ⟨_, hba, ?_, fun g hg => (hchar g hg).1, ?_, hGlt, ?_⟩
  · rw [flatten_groups_eq]
    exact filter_key_flatten_perm (fun r : Result => r.algorithm) _ _ hkeysnodup hcov
  · have hpl := List.pairwise_map.mp hGlt
    refine hpl.imp_of_mem ?_
    intro g g2 hg hg2 hlt x hxg hxg2
    have h1 := (hchar g hg).1
    have h2 := (hchar g2 hg2).1
    rw [h1] at hxg
    rw [h2] at hxg2
    have e1 : x.algorithm = g.1 := by
      have := (List.mem_filter.mp hxg).2
      simpa using this
    have e2 : x.algorithm = g2.1 := by
      have := (List.mem_filter.mp hxg2).2
      simpa using this
    rw [e1] at e2
    rw [e2] at hlt
    exact lt_irrefl _ hlt
  · intro g hg
    rw [(hchar g hg).1]
    intro hc
    have := (hchar g hg).2
    rw [hc] at this
    simp at this

/-- Witness for C8 on the two-algorithm result set `c7rs`. -/
theorem C8_by_algorithm_partitions_witness :
    ∃ groups, c7rs.by_algorithm = .ok groups ∧
      (groups.map (fun g => g.2.results)).flatten.Perm c7rs.results ∧
      (∀ g ∈ groups, g.2.results = c7rs.results.filter (fun r => r.algorithm == g.1)) ∧
      List.Pairwise (fun g g2 => ∀ x ∈ g.2.results, x ∉ g2.2.results) groups ∧
      ((groups.map (fun g => g.1)).Pairwise (· < ·)) ∧
      ∀ g ∈ groups, g.2.results ≠ [] :=
  C8_by_algorithm_partitions c7rs
    ⟨by decide, by decide, by decide, by decide, by decide⟩

/-- Two distinct members force length at least two. -/
theorem one_lt_length_of_mem_ne {α : Type} {l : List α} {a b : α}
    (ha : a ∈ l) (hb : b ∈ l) (hne : a ≠ b) : 1 < l.length := by
  cases l with
  | nil => cases ha
  | cons x xs =>
    cases xs with
    | nil =>
      rw [List.mem_singleton] at ha hb
      exact absurd (ha.trans hb.symm) hne
    | cons y ys => simp

/-- A duplicate-free list of pairwise equal elements has at most one
member. -/
theorem nodup_all_eq_length_le_one {α : Type} {l : List α} (hnd : l.Nodup)
    (h : ∀ x ∈ l, ∀ y ∈ l, x = y) : l.length ≤ 1 := by
  cases l with
  | nil => simp
  | cons a as =>
    cases as with
    | nil => simp
    | cons b bs =>
      exfalso
      apply (List.nodup_cons.mp hnd).1
      rw [h a (by simp) b (by simp)]
      simp

/-- A successful `append` stores exactly one more result at the end. -/
theorem append_ok_results {rs rs2 : ResultSet} {r : Result}
    (h : rs.append r = .ok rs2) : rs2.results = rs.results ++ [r] := by
  unfold ResultSet.append at h
  cases h0 : rs.results.head? with
  | none => rw [h0] at h; injection h with h; rw [← h]; rfl
  | some r0 =>
    rw [h0] at h
    have h2 : (if strSetEq r0.indicators r.indicators = true
        then Except.ok (rs.appendUnchecked r)
        else Except.error (CocoErr.indicatorMismatch "Indicators in results don't match"))
        = Except.ok rs2 := h
    by_cases hs : strSetEq r0.indicators r.indicators = true
    · rw [if_pos hs] at h2
      injection h2 with h2
      rw [← h2]
      rfl
    · rw [if_neg hs] at h2
      cases h2

/-- A successful `appendList` appends exactly the given results. -/
theorem appendList_ok_results :
    ∀ {l : List Result} {rs ss : ResultSet},
      rs.appendList l = .ok ss → ss.results = rs.results ++ l := by
  intro l
  induction l with
  | nil =>
    intro rs ss h
    injection h with h
    rw [← h]
    simp
  | cons r rest ih =>
    intro rs ss h
    rw [ResultSet.appendList] at h
    cases hap : rs.append r with
    | error e => rw [hap, except_bind_error] at h; cases h
    | ok rs2 =>
      rw [hap, except_bind_ok] at h
      rw [ih h, append_ok_results hap]
      simp

/-- Members of a successful `mapAtIndicator` run that are not carried over
from the accumulator are `at_indicator` outputs. -/
theorem mapAtIndicator_members {i : Indicator} {d : List (ProblemDescription × List Rat)} :
    ∀ {l : List Result} {acc out : ResultSet},
    mapAtIndicator i d acc l = .ok out →
    ∀ x ∈ out.results, x ∈ acc.results ∨
      ∃ (r : Result) (ts : List Rat), r.at_indicator (.ind i) ts = .ok x := by
  intro l
  induction l with
  | nil =>
    intro acc out h x hx
    injection h with h
    rw [← h] at hx
    exact Or.inl hx
  | cons r rest ih =>
    intro acc out h x hx
    rw [mapAtIndicator] at h
    cases hts : dictGet d r.problem with
    | error e => rw [hts, except_bind_error] at h; cases h
    | ok ts =>
      rw [hts, except_bind_ok] at h
      cases hai : r.at_indicator (.ind i) ts with
      | error e => rw [hai, except_bind_error] at h; cases h
      | ok ir =>
        rw [hai, except_bind_ok] at h
        cases hap : acc.append ir with
        | error e => rw [hap, except_bind_error] at h; cases h
        | ok acc2 =>
          rw [hap, except_bind_ok] at h
          rcases ih h x hx with hin | hout
          · rw [append_ok_results hap] at hin
            rcases List.mem_append.mp hin with hin | hin
            · exact Or.inl hin
            · rw [List.mem_singleton.mp hin]
              exact Or.inr ⟨r, ts, hai⟩
          · exact Or.inr hout

/-- Groups produced by a successful `by_algorithm` run are non-empty and
draw their members from the input list. -/
theorem byAlgorithmAux_members :
    ∀ {keys : List String} {l : List Result}
      {groups : List (String × ResultSet)},
    byAlgorithmAux l keys = .ok groups →
    ∀ g ∈ groups, (∀ x ∈ g.2.results, x ∈ l) ∧ g.2.results ≠ [] := by
  intro keys
  induction keys with
  | nil =>
    intro l groups h g hg
    injection h with h
    rw [← h] at hg
    cases hg
  | cons a rest ih =>
    intro l groups h g hg
    rw [byAlgorithmAux] at h
    cases hss : ResultSet.empty.appendList (l.filter (fun r => r.algorithm == a)) with
    | error e => rw [hss, except_bind_error] at h; cases h
    | ok ss =>
      rw [hss, except_bind_ok] at h
      cases htail : byAlgorithmAux l rest with
      | error e => rw [htail, except_bind_error] at h; cases h
      | ok tail =>
        rw [htail, except_bind_ok] at h
        have hssres : ss.results = l.filter (fun r => r.algorithm == a) := by
          rw [appendList_ok_results hss]
          rfl
        by_cases hlen : ss.results.length > 0
        · rw [if_pos hlen] at h
          injection h with h
          rw [← h] at hg
          rcases List.mem_cons.mp hg with rfl | hg2
          · refine ⟨?_, ?_⟩
            · intro x hx
              rw [hssres] at hx
              exact List.mem_of_mem_filter hx
            · intro hc
              rw [hc] at hlen
              simp at hlen
          · exact ih htail g hg2
        · rw [if_neg hlen] at h
          injection h with h
          rw [← h] at hg
          exact ih htail g hg

/-- The table of an `at_indicator` output always carries the
`__fevals_dim` and `__target_hit` columns. -/
theorem at_indicator_ok_columns {r : Result} {ind : Indicator} {targets : List Rat}
    {x : Result} (hok : r.at_indicator (.ind ind) targets = .ok x) :
    "__fevals_dim" ∈ x.data.columns ∧ "__target_hit" ∈ x.data.columns := by
  obtain ⟨hmem, fmax, hmax, rfl⟩ := at_indicator_ok_char hok
  have hc0 : (renameFevals (atIndicatorFrame ind targets r fmax) "fevals").colIdx "__fevals"
      = some 0 := by
    unfold renameFevals atIndicatorFrame DataFrame.rename DataFrame.colIdx
    simp
  have hcols : (Result.init r.algorithm r.problem (atIndicatorFrame ind targets r fmax)
      "fevals").data.columns
      = (renameFevals (atIndicatorFrame ind targets r fmax) "fevals").columns
        ++ ["__fevals_dim"] := by
    show ((renameFevals (atIndicatorFrame ind targets r fmax) "fevals").sortBy "__fevals"
        |>.withFevalsDim r.problem.number_of_variables).columns = _
    rw [withFevalsDim_columns _ (by rw [sortBy_colIdx]; exact hc0), sortBy_columns]
  have hren : (renameFevals (atIndicatorFrame ind targets r fmax) "fevals").columns
      = ["__fevals", if ind.name = "fevals" then "__fevals" else ind.name,
         "__target_hit"] := by
    unfold renameFevals atIndicatorFrame DataFrame.rename
    simp
  rw [hcols, hren]
  constructor
  · simp
  · simp

/-- Selecting present columns succeeds and fixes the output schema. -/
theorem selectE_ok_of_mem {df : DataFrame} {names : List String}
    (h : ∀ nm ∈ names, nm ∈ df.columns) :
    df.selectE names = .ok
      { columns := names,
        rows := df.rows.map (fun r =>
          names.map (fun nm =>
            match df.colIdx nm with
            | some j => r.getD j 0
            | none => 0)) } := by
  unfold DataFrame.selectE
  rw [if_pos]
  rw [List.all_eq_true]
  intro nm hnm
  exact List.elem_iff.mpr (h nm hnm)

/-- The `rtlist` loop succeeds on results that all carry the two pooled
columns, and every produced frame has exactly those two columns. -/
theorem selectFrames_ok :
    ∀ {l : List Result},
    (∀ x ∈ l, "__fevals_dim" ∈ x.data.columns ∧ "__target_hit" ∈ x.data.columns) →
    ∃ fs, selectFrames l = .ok fs ∧
      (∀ e ∈ fs, e.columns = ["__fevals_dim", "__target_hit"]) ∧
      fs.length = l.length := by
  intro l
  induction l with
  | nil => exact fun _ => ⟨[], rfl, by simp, rfl⟩
  | cons ar rest ih =>
    intro h
    obtain ⟨fs, hfs, hcols, hlen⟩ := ih (fun x hx => h x (by simp [hx]))
    have hsel := @selectE_ok_of_mem ar.data ["__fevals_dim", "__target_hit"] (by
        intro nm hnm
        rcases List.mem_cons.mp hnm with rfl | hnm
        · exact (h ar (by simp)).1
        · rw [List.mem_singleton.mp hnm]
          exact (h ar (by simp)).2)
    refine ⟨{ columns := ["__fevals_dim", "__target_hit"],
              rows := ar.data.rows.map (fun r =>
                ["__fevals_dim", "__target_hit"].map (fun nm =>
                  match ar.data.colIdx nm with
                  | some j => r.getD j 0
                  | none => 0)) } :: fs, ?_, ?_, by simpa using hlen⟩
    · rw [selectFrames, hsel, except_bind_ok, hfs, except_bind_ok]
    · intro e he
      rcases List.mem_cons.mp he with rfl | he
      · rfl
      · exact hcols e he

/-- Vertical concatenation succeeds on a non-empty batch of frames sharing
one schema. -/
theorem plConcat_ok_of_uniform {ds : List DataFrame} {cols : List String}
    (hne : ds ≠ []) (h : ∀ e ∈ ds, e.columns = cols) :
    ∃ df, plConcat ds = .ok df := by
  cases ds with
  | nil => exact absurd rfl hne
  | cons d rest =>
    have hall : (rest.all fun e => e.columns == d.columns) = true := by
      rw [List.all_eq_true]
      intro e he
      have h1 := h e (by simp [he])
      have h2 := h d (by simp)
      rw [h1, h2]
      simp
    refine ⟨{ columns := d.columns, rows := d.rows ++ rest.flatMap (fun e => e.rows) }, ?_⟩
    show (if (rest.all fun e => e.columns == d.columns) = true then
        Except.ok (DataFrame.mk d.columns (d.rows ++ rest.flatMap (fun e => e.rows)))
      else Except.error CocoErr.typeError)
      = Except.ok (DataFrame.mk d.columns (d.rows ++ rest.flatMap (fun e => e.rows)))
    rw [if_pos hall]

/-- `resolve` acts as the identity on already-resolved indicators. -/
theorem resolve_ind (i : Indicator) : resolve (.ind i) = .ok i := rfl

/-- The repetition check on the first group records its size. -/
theorem rtpCheck_none (foundLen : Nat) (algo : String) (len : Nat) :
    rtpCheck foundLen algo len none = .ok len := rfl

/-- A repetition-count mismatch aborts the check with the expected count,
the offending algorithm and the enclosing result count. -/
theorem rtpCheck_some_ne {n len : Nat} (foundLen : Nat) (algo : String)
    (h : n ≠ len) :
    rtpCheck foundLen algo len (some n)
      = .error (.badRuntimeProfileReps n algo foundLen) := by
  rw [rtpCheck, if_pos h]

/-- A matching repetition count passes the check unchanged. -/
theorem rtpCheck_some_eq {n len : Nat} (foundLen : Nat) (algo : String)
    (h : n = len) :
    rtpCheck foundLen algo len (some n) = .ok n := by
  rw [rtpCheck, if_neg (by omega)]

/-- Once the expected repetition count `n` is fixed, a group of a different
size somewhere in the remaining groups aborts the per-algorithm loop with
the repetition error.  The groups before the offender must be non-empty and
carry the two pooled columns, so that they are processed without error. -/
theorem rtpFold_mismatch (ecdf : List Rat → List Rat → List Rat × List Rat)
    (foundLen n : Nat) :
    ∀ {groups : List (String × ResultSet)},
    (∀ g ∈ groups,
      (∀ x ∈ g.2.results,
        "__fevals_dim" ∈ x.data.columns ∧ "__target_hit" ∈ x.data.columns) ∧
      g.2.results ≠ []) →
    (∃ g ∈ groups, g.2.results.length ≠ n) →
    ∃ a, rtpFold ecdf foundLen (some n) groups
      = .error (.badRuntimeProfileReps n a foundLen) := by
  intro groups
  induction groups with
  | nil =>
    intro _ hex
    obtain ⟨g, hg, _⟩ := hex
    cases hg
  | cons p rest ih =>
    obtain ⟨algo, ar⟩ := p
    intro hall hex
    by_cases hne : n ≠ ar.results.length
    · exact ⟨algo, by rw [rtpFold, rtpCheck_some_ne foundLen algo hne, except_bind_error]⟩
    · push_neg at hne
      obtain ⟨fs, hfs, hfscols, hfslen⟩ := selectFrames_ok (hall (algo, ar) (by simp)).1
      have hfsne : fs ≠ [] := by
        intro hc
        apply (hall (algo, ar) (by simp)).2
        rw [hc] at hfslen
        exact List.length_eq_zero.mp hfslen.symm
      obtain ⟨df, hdf⟩ := plConcat_ok_of_uniform hfsne hfscols
      have hex' : ∃ g ∈ rest, g.2.results.length ≠ n := by
        obtain ⟨g, hg, hgn⟩ := hex
        rcases List.mem_cons.mp hg with rfl | hg2
        · exact absurd hne.symm hgn
        · exact ⟨g, hg2, hgn⟩
      obtain ⟨a, htail⟩ := ih (fun g hg => hall g (by simp [hg])) hex'
      refine ⟨a, ?_⟩
      simp only [rtpFold, rtpCheck_some_eq foundLen algo hne, except_bind_ok,
        hfs, hdf, htail, except_bind_error]

/-- C9: decoding the JSON document produced by `to_json` with `from_json`
recovers the original `ProblemDescription`; the round trip is the
identity. -/
theorem C9_problem_description_json_roundtrip (p : ProblemDescription) :
    ProblemDescription.from_json p.to_json = .ok p := by
  cases p
  rfl

/-- C1: on the evaluation counts `[1,2,3,10,20,50,100]` with `hypervolume`
values `[10,...,70]`, targets `[15,25,35,120]` yield evaluation counts
`[2,3,10,100]` and hit flags `[1,1,1,0]`; the unreached target 120 is
censored at the maximum evaluation count 100. -/
theorem C1_crossing_search_example :
    (sampleResult.at_indicator (.str "hypervolume") [15, 25, 35, 120]).map
      (fun r => (r.data.getCol "__fevals", r.data.getCol "hypervolume",
                 r.data.getCol "__target_hit"))
      = .ok ([2, 3, 10, 100], [15, 25, 35, 120], [1, 1, 1, 0]) := by rfl

/-- C10: passing an explicitly empty targets dictionary to
`runtime_profiles` behaves identically to omitting it — Python's falsiness
test discards the empty mapping and regenerates targets, for every result
set, indicator, target count and ECDF estimator. -/
theorem C10_empty_targets_like_none (ecdf : List Rat → List Rat → List Rat × List Rat)
    (results : ResultSet) (indicator : IndicatorArg) (number_of_targets : Nat) :
    runtime_profiles ecdf results indicator number_of_targets (some [])
      = runtime_profiles ecdf results indicator number_of_targets none := rfl

/-- C3: appending a result whose indicator set differs (as a set) from the
first member's raises `IndicatorMismatchException`; the check precedes every
mutation, so the functional model returns only the error and the original
set is untouched. -/
theorem C3_append_mismatch_errors (rs : ResultSet) (result r0 : Result)
    (h0 : rs.results.head? = some r0)
    (hne : strSetEq r0.indicators result.indicators = false) :
    rs.append result = .error (.indicatorMismatch "Indicators in results don't match") := by
  simp [ResultSet.append, h0, hne]

/-- Witness for C3 at a concrete mismatching pair (`hypervolume`-only versus
`r2`-only indicator sets). -/
theorem C3_append_mismatch_errors_witness :
    (ResultSet.empty.appendUnchecked sampleResult).append sampleResultR2
      = .error (.indicatorMismatch "Indicators in results don't match") :=
  C3_append_mismatch_errors _ sampleResultR2 sampleResult (by rfl) (by rfl)

/-- Counterexample to C2 as stated: for the sample trace and the target
sequence `[50, 15]` (not ordered easiest-to-hardest), the evaluation count
recorded for target 15 is 20 — the shared forward-only cursor has already
passed the true first crossing — while the smallest evaluation count at
which the running best reaches 15 is 2. -/
theorem C2_counterexample :
    (sampleResult.at_indicator (.str "hypervolume") [50, 15]).map
      (fun r => (r.data.getCol "__fevals", r.data.getCol "hypervolume"))
      = .ok ([20, 20], [50, 15]) ∧
    specSmallestCrossingFeval true (sampleResult.data.getCol "__fevals")
      (sampleResult.data.getCol "hypervolume") 15 = some 2 ∧
    (20 : Rat) ≠ 2 := ⟨by rfl, by rfl, by decide⟩

/-- Counterexample to C6 as stated: the table of the Result returned by
`at_indicator` has four columns, not three — the constructor appends the
derived `__fevals_dim` column. -/
theorem C6_counterexample :
    (sampleResult.at_indicator (.str "hypervolume") [15]).map
      (fun r => (r.data.columns, r.data.columns.length))
      = .ok (["__fevals", "hypervolume", "__target_hit", "__fevals_dim"], 4) ∧
    4 ≠ 3 := ⟨by rfl, by decide⟩

/-- C6 (amended): `at_indicator` returns a new Result for the same algorithm
and problem whose table consists of the evaluation-count column, the
indicator column of target values and the hit/miss flag column, plus the
derived evaluations-per-dimension column appended by the constructor; the
receiver is not mutated (inherent in the functional embedding). -/
theorem C6_at_indicator_output_shape (r : Result) (ind : Indicator)
    (targets : List Rat) (r' : Result)
    (hname : ind.name ≠ "fevals")
    (hok : r.at_indicator (.ind ind) targets = .ok r') :
    r'.algorithm = r.algorithm ∧ r'.problem = r.problem ∧
    r'.data.columns = ["__fevals", ind.name, "__target_hit", "__fevals_dim"] := by
  obtain ⟨hmem, fmax, hmax, rfl⟩ := at_indicator_ok_char hok
  refine ⟨rfl, rfl, ?_⟩
  unfold Result.init
  have h1 : renameFevals (atIndicatorFrame ind targets r fmax) "fevals"
      = { columns := ["__fevals", ind.name, "__target_hit"],
          rows := (atIndicatorFrame ind targets r fmax).rows } := by
    unfold renameFevals DataFrame.rename atIndicatorFrame
    simp [hname]
  rw [h1]
  have h2 : DataFrame.colIdx
      { columns := ["__fevals", ind.name, "__target_hit"],
        rows := (atIndicatorFrame ind targets r fmax).rows } "__fevals" = some 0 := by
    unfold DataFrame.colIdx
    simp
  rw [withFevalsDim_columns _ (by rw [sortBy_colIdx]; exact h2), sortBy_columns]
  rfl

/-- Witness for the amended C6 at the sample trace, indicator `hypervolume`
and target list `[15]`. -/
theorem C6_at_indicator_output_shape_witness :
    (Result.init "algo" sampleProblem
      (atIndicatorFrame ⟨"hypervolume", "Hypervolume", true⟩ [15] sampleResult 100)
      "fevals").algorithm = sampleResult.algorithm ∧
    (Result.init "algo" sampleProblem
      (atIndicatorFrame ⟨"hypervolume", "Hypervolume", true⟩ [15] sampleResult 100)
      "fevals").problem = sampleResult.problem ∧
    (Result.init "algo" sampleProblem
      (atIndicatorFrame ⟨"hypervolume", "Hypervolume", true⟩ [15] sampleResult 100)
      "fevals").data.columns
      = ["__fevals", "hypervolume", "__target_hit", "__fevals_dim"] :=
  C6_at_indicator_output_shape sampleResult ⟨"hypervolume", "Hypervolume", true⟩ [15] _
    (by decide) (by rfl)

/-- C4: `runtime_profiles` fails with the dedicated bad-runtime-profile
conditions, each a distinct error raised at its point of detection: (a) the
stored results do not all share one `number_of_variables`; (b) they share
the dimension but not one `number_of_objectives`; (c) the guards pass but
the per-algorithm groups of derived results have unequal sizes, in which
case the error carries the first group's size as the expected repetition
count. -/
theorem C4_runtime_profiles_errors
    (ecdf : List Rat → List Rat → List Rat × List Rat)
    (rs : ResultSet) (i : Indicator) (n : Nat) :
    (∀ t, rs.Mirrors →
      (∃ r1 ∈ rs.results, ∃ r2 ∈ rs.results,
        r1.problem.number_of_variables ≠ r2.problem.number_of_variables) →
      runtime_profiles ecdf rs (.ind i) n t = .error .badRuntimeProfileVars) ∧
    (∀ t, rs.Mirrors →
      (∀ r1 ∈ rs.results, ∀ r2 ∈ rs.results,
        r1.problem.number_of_variables = r2.problem.number_of_variables) →
      (∃ r1 ∈ rs.results, ∃ r2 ∈ rs.results,
        r1.problem.number_of_objectives ≠ r2.problem.number_of_objectives) →
      runtime_profiles ecdf rs (.ind i) n t = .error .badRuntimeProfileObjs) ∧
    (∀ d irs g0 gs,
      rs.number_of_variables.length ≤ 1 →
      rs.number_of_objectives.length ≤ 1 →
      d ≠ [] →
      mapAtIndicator i d ResultSet.empty rs.results = .ok irs →
      irs.by_algorithm = .ok (g0 :: gs) →
      (∃ g ∈ gs, g.2.results.length ≠ g0.2.results.length) →
      ∃ a, runtime_profiles ecdf rs (.ind i) n (some d)
        = .error (.badRuntimeProfileReps g0.2.results.length a rs.results.length)) := by
  refine ⟨?_, ?_, ?_⟩
  · rintro t hm ⟨r1, hr1, r2, hr2, hne⟩
    have hgt : rs.number_of_variables.length > 1 := by
      rw [hm.2.2.1]
      exact one_lt_length_of_mem_ne
        (mem_dedupList.mpr (List.mem_map_of_mem _ hr1))
        (mem_dedupList.mpr (List.mem_map_of_mem _ hr2)) hne
    simp only [runtime_profiles, resolve_ind, except_bind_ok, hgt, if_true, except_throw]
  · rintro t hm hvars ⟨r1, hr1, r2, hr2, hne⟩
    have hle : ¬ rs.number_of_variables.length > 1 := by
      have h1 : rs.number_of_variables.length ≤ 1 := by
        rw [hm.2.2.1]
        refine nodup_all_eq_length_le_one (nodup_dedupList _) ?_
        intro x hx y hy
        obtain ⟨rx, hrx, rfl⟩ := List.mem_map.mp (mem_dedupList.mp hx)
        obtain ⟨ry, hry, rfl⟩ := List.mem_map.mp (mem_dedupList.mp hy)
        exact hvars rx hrx ry hry
      omega
    have hgt : rs.number_of_objectives.length > 1 := by
      rw [hm.2.2.2.1]
      exact one_lt_length_of_mem_ne
        (mem_dedupList.mpr (List.mem_map_of_mem _ hr1))
        (mem_dedupList.mpr (List.mem_map_of_mem _ hr2)) hne
    simp only [runtime_profiles, resolve_ind, except_bind_ok, hle, hgt, if_true,
      if_false, except_throw]
  · intro d irs g0 gs hv ho hd hmai hba hex
    obtain ⟨algo0, ar0⟩ := g0
    have hba' : byAlgorithmAux irs.results (sortedStrings irs.algorithms)
        = .ok ((algo0, ar0) :: gs) := hba
    have hcols : ∀ g ∈ (algo0, ar0) :: gs,
        (∀ x ∈ g.2.results,
          "__fevals_dim" ∈ x.data.columns ∧ "__target_hit" ∈ x.data.columns) ∧
        g.2.results ≠ [] := by
      intro g hg
      have hmem := byAlgorithmAux_members hba' g hg
      refine ⟨?_, hmem.2⟩
      intro x hx
      rcases mapAtIndicator_members hmai x (hmem.1 x hx) with hin | ⟨r, ts, hai⟩
      · cases hin
      · exact at_indicator_ok_columns hai
    obtain ⟨fs, hfs, hfscols, hfslen⟩ := selectFrames_ok (hcols (algo0, ar0) (by simp)).1
    have hfsne : fs ≠ [] := by
      intro hc
      apply (hcols (algo0, ar0) (by simp)).2
      rw [hc] at hfslen
      exact List.length_eq_zero.mp hfslen.symm
    obtain ⟨df, hdf⟩ := plConcat_ok_of_uniform hfsne hfscols
    obtain ⟨a, htail⟩ := rtpFold_mismatch ecdf rs.results.length ar0.results.length
      (fun g hg => hcols g (by simp [hg])) hex
    have hfalsy : targetsFalsy (some d) = false := by
      unfold targetsFalsy
      simpa [List.isEmpty_iff] using hd
    have hv' : ¬ rs.number_of_variables.length > 1 := by omega
    have ho' : ¬ rs.number_of_objectives.length > 1 := by omega
    refine ⟨a, ?_⟩
    have hrtp : rtpFold ecdf rs.results.length none ((algo0, ar0) :: gs)
        = .error (.badRuntimeProfileReps ar0.results.length a rs.results.length) := by
      simp only [rtpFold, rtpCheck_none, except_bind_ok, hfs, hdf, htail,
        except_bind_error]
    simp only [runtime_profiles, resolve_ind, except_bind_ok, hv', ho', hfalsy,
      Bool.false_eq_true, if_false, Option.getD_some, except_pure, hmai, hba, hrtp]

/-- Witness for C4 at concrete result sets: mixed dimensions, mixed
objective counts, and algorithm `a` with one run against algorithm `b` with
two runs. -/
theorem C4_runtime_profiles_errors_witness :
    runtime_profiles ecdf0 c4varsRS (.ind hvInd) 5 none
      = .error .badRuntimeProfileVars ∧
    runtime_profiles ecdf0 c4objsRS (.ind hvInd) 5 none
      = .error .badRuntimeProfileObjs ∧
    (∃ a, runtime_profiles ecdf0 c4rs (.ind hvInd) 5 (some c4dict)
      = .error (.badRuntimeProfileReps c4g0.2.results.length a c4rs.results.length)) :=
  ⟨(C4_runtime_profiles_errors ecdf0 c4varsRS hvInd 5).1 none
      ⟨by decide, by decide, by decide, by decide, by decide⟩ (by decide),
   (C4_runtime_profiles_errors ecdf0 c4objsRS hvInd 5).2.1 none
      ⟨by decide, by decide, by decide, by decide, by decide⟩ (by decide) (by decide),
   (C4_runtime_profiles_errors ecdf0 c4rs hvInd 5).2.2 c4dict c4irs c4g0 c4gs
      (by decide) (by decide) (by decide) rfl
      (by
        show byAlgorithmAux c4irs.results (sortedStrings c4irs.algorithms)
          = .ok (c4g0 :: c4gs)
        have halg : c4irs.algorithms = ["a", "b"] := rfl
        have hab : ("a" : String) ≤ "b" := String.le_iff_toList_le.mpr (by decide)
        have hs : List.Sorted (fun a b : String => a ≤ b) ["a", "b"] :=
          List.sorted_cons.mpr
            ⟨fun c hc => by rw [List.mem_singleton.mp hc]; exact hab,
             List.sorted_singleton _⟩
        rw [halg, show sortedStrings ["a", "b"] = ["a", "b"] from hs.insertionSort_eq]
        rfl)
      (by decide)⟩

end CocoViz
